import Mathlib

/-!
Verification of the MiniDB v1 storage core (pager, leaf-page codec, table
manager) against its natural-language specification.

The development is a shallow embedding of the C sources:
  * a page is a byte buffer, modelled as a function from byte offset to byte
    value; every read goes through `readByte`, which truncates to an 8-bit
    value, mirroring the fact that the C buffers hold `uint8_t` cells;
  * all multi-byte on-disk integers are little-endian; the C idiom
    `p[0] | (p[1] << 8)` assembles disjoint byte lanes and is rendered
    arithmetically as `p[0] + 256 * p[1]` (u32 likewise);
  * machine-integer wraparound is explicit (`% 2^32` where the C computes in
    `uint32_t`);
  * fallible C functions returning an `int` error code plus out-parameters
    become Lean functions returning the error code paired with the result, or
    `Except Int result`;
  * file I/O never fails spuriously in the model: `pread`/`pwrite` retry loops
    of the C code are modelled as plain lookups/updates of the file image, and
    the unbounded `while` loops of the table manager take an explicit fuel
    argument (exhausted fuel yields the artificial code `E_FUEL`, which no
    genuine C path returns).
-/

set_option maxRecDepth 10000

/-! ### Byte buffers -/

/-- A byte buffer: map from byte offset to stored value.  Cells are `uint8_t`
in C; `readByte` truncates, so only the low 8 bits of a cell are observable. -/
def Page : Type := Nat → Nat

/-- Read one byte (a `uint8_t` cell holds a value below 256). -/
def readByte (p : Page) (i : Nat) : Nat := p i % 256

/-- Store one byte. -/
def writeByte (p : Page) (i v : Nat) : Page :=
  fun j => if j = i then v else p j

/-- The all-zero page (`calloc` / freshly appended page). -/
def zeroPage : Page := fun _ => 0

/-- `read_le_u16` from endian_util.h: `p[0] | (p[1] << 8)` over byte lanes. -/
def read_le_u16 (p : Page) (off : Nat) : Nat :=
  readByte p off + 256 * readByte p (off + 1)

/-- `read_le_u32` from endian_util.h. -/
def read_le_u32 (p : Page) (off : Nat) : Nat :=
  readByte p off + 256 * readByte p (off + 1) + 65536 * readByte p (off + 2) +
    16777216 * readByte p (off + 3)

/-- `write_le_u16`: stores `v & 0xFF` and `(v >> 8) & 0xFF` (the masking is
performed by the `uint8_t` cells, i.e. by `readByte`). -/
def write_le_u16 (p : Page) (off v : Nat) : Page :=
  writeByte (writeByte p off v) (off + 1) (v >>> 8)

/-- `write_le_u32`. -/
def write_le_u32 (p : Page) (off v : Nat) : Page :=
  writeByte (writeByte (writeByte (writeByte p off v) (off + 1) (v >>> 8))
    (off + 2) (v >>> 16)) (off + 3) (v >>> 24)

/-! ### Error codes (table.h / pager.h) -/

def TABLE_OK : Int := 0
def TABLE_E_INVAL : Int := -1
def TABLE_E_BADKIND : Int := -2
def TABLE_E_LAYOUT : Int := -3
def TABLE_E_BITMAP : Int := -4
def TABLE_E_FULL : Int := -5

def PAGER_OK : Int := 0
def PAGER_E_IOERR : Int := -1
def PAGER_E_MAGIC : Int := -2
def PAGER_E_VERSION : Int := -3
def PAGER_E_PAGESIZE : Int := -4
def PAGER_E_META : Int := -5
def PAGER_E_TRUNCATED : Int := -6
def PAGER_E_RANGE : Int := -7
def PAGER_E_INVAL : Int := -8

/-- Artificial fuel-exhaustion code of the model (no C path returns it). -/
def E_FUEL : Int := -100

/-! ### Leaf-page codec (table.c) -/

/-- `compute_capacity`'s downward search loop: the largest `c` at most the
starting value with `24 + ceil(c/8) + c*record_size <= 4096`. -/
def capLoop (rs : Nat) : Nat → Nat
  | 0 => 0
  | c + 1 => if 24 + ((c + 1) + 7) / 8 + (c + 1) * rs ≤ 4096 then c + 1 else capLoop rs c

/-- `compute_capacity` from table.c (`record_size <= 0` can only be
`record_size == 0` for a natural number). -/
def compute_capacity (rs : Nat) : Nat :=
  if rs = 0 ∨ rs > 4096 then 0
  else if 4096 - 24 < rs then 0
  else capLoop rs ((4096 - 24) / rs)

/-- Header accessor `hdr_kind` (offset 0, u16 LE). -/
def tbl_get_kind (p : Page) : Nat := read_le_u16 p 0

/-- Header accessor `hdr_record_size` (offset 2). -/
def tbl_get_record_size (p : Page) : Nat := read_le_u16 p 2

/-- Header accessor `hdr_capacity` (offset 4). -/
def tbl_get_capacity (p : Page) : Nat := read_le_u16 p 4

/-- Header accessor `hdr_used_count` (offset 6). -/
def tbl_get_used_count (p : Page) : Nat := read_le_u16 p 6

/-- Header accessor `hdr_next_page` (offset 8, u32 LE). -/
def tbl_get_next_page (p : Page) : Nat := read_le_u32 p 8

/-- `tbl_set_next_page`. -/
def tbl_set_next_page (p : Page) (v : Nat) : Page := write_le_u32 p 8 v

/-- The inner `while (byte) { count += byte & 1; byte >>= 1; }` of
`bitmap_popcount`, with a fuel argument bounding the number of shifts (8
shifts empty any `uint8_t` value). -/
def popByteGo : Nat → Nat → Nat
  | 0, _ => 0
  | f + 1, b => if b = 0 then 0 else b % 2 + popByteGo f (b / 2)

/-- Per-byte population count of a `uint8_t` value. -/
def popByte (b : Nat) : Nat := popByteGo 8 b

/-- `bitmap_popcount` over the first `n` bitmap bytes (bitmap starts at
offset `TABLE_HDR_SIZE = 24`). -/
def popcountBM (p : Page) : Nat → Nat
  | 0 => 0
  | k + 1 => popcountBM p k + popByte (readByte p (24 + k))

/-- `tbl_init_leaf`: zero the 4096-byte buffer, compute capacity, write the
header fields, clear the reserved words. -/
def tbl_init_leaf (page : Page) (rs : Nat) : Int × Page :=
  if rs ≠ 128 then (TABLE_E_INVAL, page)
  else
    let z : Page := fun i => if i < 4096 then 0 else page i
    let cap := compute_capacity rs
    if cap = 0 then (TABLE_E_LAYOUT, z)
    else
      let p1 := write_le_u16 z 0 1
      let p2 := write_le_u16 p1 2 rs
      let p3 := write_le_u16 p2 4 cap
      let p4 := write_le_u16 p3 6 0
      let p5 := write_le_u32 p4 8 0
      let p6 := write_le_u32 (write_le_u32 (write_le_u32 p5 12 0) 16 0) 20 0
      (TABLE_OK, p6)

/-- `tbl_validate` from table.c (the `page == NULL` guard has no counterpart
for a total function argument). -/
def tbl_validate (page : Page) : Int :=
  if tbl_get_kind page ≠ 1 then TABLE_E_BADKIND
  else if tbl_get_record_size page ≠ 128 then TABLE_E_LAYOUT
  else
    let rs := tbl_get_record_size page
    let cap := tbl_get_capacity page
    if cap < 1 ∨ cap ≠ compute_capacity rs then TABLE_E_LAYOUT
    else
      let used := tbl_get_used_count page
      if used > cap then TABLE_E_LAYOUT
      else
        let bmBytes := (cap + 7) / 8
        if popcountBM page bmBytes ≠ used then TABLE_E_BITMAP
        else if 24 + bmBytes + cap * rs > 4096 then TABLE_E_LAYOUT
        else
          let validBits := cap % 8
          if validBits ≠ 0 ∧
              readByte page (24 + bmBytes - 1) &&& (255 <<< validBits) % 256 ≠ 0 then
            TABLE_E_BITMAP
          else TABLE_OK

/-- Inner bit loop of `tbl_slot_find_free`: scan bits `j, j+1, ...` of byte
value `b` (at slot base `base`), returning the first `j` whose bit is clear
and whose slot index `base + j` is below `cap`.  The fuel argument counts the
remaining bits (8 at the top call). -/
def innerFrom (b base cap j : Nat) : Nat → Option Nat
  | 0 => none
  | f + 1 =>
    if b &&& (1 <<< j) = 0 ∧ base + j < cap then some j
    else innerFrom b base cap (j + 1) f

/-- Outer byte loop of `tbl_slot_find_free`: scan bitmap bytes `i, i+1, ...`
(`rem` bytes remaining), skipping bytes equal to 0xFF. -/
def scanBytes (page : Page) (cap : Nat) : Nat → Nat → Option Nat
  | _, 0 => none
  | i, r + 1 =>
    let b := readByte page (24 + i)
    if b ≠ 255 then
      match innerFrom b (8 * i) cap 0 8 with
      | some j => some (8 * i + j)
      | none => scanBytes page cap (i + 1) r
    else scanBytes page cap (i + 1) r

/-- `tbl_slot_find_free` from table.c. -/
def tbl_slot_find_free (page : Page) : Int :=
  let cap := tbl_get_capacity page
  let used := tbl_get_used_count page
  if cap = 0 ∨ used = cap then -1
  else
    match scanBytes page cap 0 ((cap + 7) / 8) with
    | some idx => Int.ofNat idx
    | none => -1

/-- `tbl_slot_mark_used`: returns the error code and the (possibly updated)
page; the C function mutates the buffer in place. -/
def tbl_slot_mark_used (page : Page) (idx : Int) : Int × Page :=
  if idx < 0 then (TABLE_E_INVAL, page)
  else
    let i := idx.toNat
    let cap := tbl_get_capacity page
    if cap ≤ i then (TABLE_E_INVAL, page)
    else
      let used := tbl_get_used_count page
      if used > cap then (TABLE_E_LAYOUT, page)
      else if used = cap then (TABLE_E_FULL, page)
      else
        let b := readByte page (24 + i / 8)
        let mask := 1 <<< (i % 8)
        if b &&& mask ≠ 0 then (TABLE_E_INVAL, page)
        else
          let p1 := writeByte page (24 + i / 8) (b ||| mask)
          (TABLE_OK, write_le_u16 p1 6 (used + 1))

/-- `tbl_slot_mark_free`; `bm[byte] &= (uint8_t)~bit_mask` clears the mask
bit, i.e. ANDs with `255 ^^^ mask`. -/
def tbl_slot_mark_free (page : Page) (idx : Int) : Int × Page :=
  if idx < 0 then (TABLE_E_INVAL, page)
  else
    let i := idx.toNat
    let cap := tbl_get_capacity page
    if cap ≤ i then (TABLE_E_INVAL, page)
    else
      let used := tbl_get_used_count page
      if used > cap then (TABLE_E_LAYOUT, page)
      else if used = 0 then (TABLE_E_INVAL, page)
      else
        let b := readByte page (24 + i / 8)
        let mask := 1 <<< (i % 8)
        if b &&& mask = 0 then (TABLE_E_INVAL, page)
        else
          let p1 := writeByte page (24 + i / 8) (b &&& (255 ^^^ mask))
          (TABLE_OK, write_le_u16 p1 6 (used - 1))

/-- `tbl_slot_ptr` / `tbl_slot_ptr_c`: the pointer into the page buffer is
modelled by the byte offset of slot `idx`'s payload, `none` standing for the
NULL return. -/
def tbl_slot_ptr (page : Page) (idx : Int) : Option Nat :=
  if idx < 0 then none
  else
    let i := idx.toNat
    let cap := tbl_get_capacity page
    if cap ≤ i then none
    else some (24 + (cap + 7) / 8 + tbl_get_record_size page * i)

/-- `tbl_slot_is_used`. -/
def tbl_slot_is_used (page : Page) (idx : Int) : Bool :=
  if idx < 0 then false
  else
    let i := idx.toNat
    let cap := tbl_get_capacity page
    if cap ≤ i then false
    else readByte page (24 + i / 8) &&& (1 <<< (i % 8)) ≠ 0

/-! ### Pager (pager.c)

The pager owns the file image.  `page_size` is validated to be 4096 on open,
so it is a constant of the model; `pages q` is the content of the 4096-byte
region at file offset `q * 4096` (the file image as an array of pages). -/

structure PagerS where
  pageCount : Nat
  pages : Nat → Page

/-- `pager_read`: range check, then the (never-failing in the model)
positional read.  The offset-overflow guard of the C code compares
`page_no` against `UINT64_MAX / page_size`. -/
def pager_read (S : PagerS) (no : Nat) : Except Int Page :=
  if no ≥ S.pageCount then .error PAGER_E_RANGE
  else if no > (2 ^ 64 - 1) / 4096 then .error PAGER_E_META
  else .ok (S.pages no)

/-- `pager_write`: overflow guard first (as in the C code), then range check,
then the positional write. -/
def pager_write (S : PagerS) (no : Nat) (buf : Page) : Except Int PagerS :=
  if no > (2 ^ 64 - 1) / 4096 then .error PAGER_E_META
  else if no ≥ S.pageCount then .error PAGER_E_RANGE
  else .ok { S with pages := fun q => if q = no then buf else S.pages q }

/-- `pager_alloc_page`: refuse at `UINT32_MAX` pages, guard the 64-bit offset
computation, append a zeroed page, bump `page_count` and persist it to bytes
12..15 of page 0.  Returns the new state and the new page number (the
previous `page_count`). -/
def pager_alloc_page (S : PagerS) : Except Int (PagerS × Nat) :=
  if S.pageCount = 2 ^ 32 - 1 then .error PAGER_E_META
  else
    let newNo := S.pageCount
    if newNo * 4096 > 2 ^ 63 - 1 ∨ newNo * 4096 + 4096 > 2 ^ 63 - 1 then .error PAGER_E_META
    else
      let pages1 := fun q => if q = newNo then zeroPage else S.pages q
      let newCount := S.pageCount + 1
      let pages2 := fun q => if q = 0 then write_le_u32 (pages1 0) 12 newCount else pages1 q
      .ok ({ pageCount := newCount, pages := pages2 }, newNo)

/-- `validate_header` from pager.c, on the 20 header bytes (magic "MDB1" is
the byte sequence 77, 68, 66, 49). -/
def validate_header (h : Page) : Int :=
  if ¬(readByte h 0 = 77 ∧ readByte h 1 = 68 ∧ readByte h 2 = 66 ∧ readByte h 3 = 49) then
    PAGER_E_MAGIC
  else if read_le_u32 h 4 ≠ 1 then PAGER_E_VERSION
  else if read_le_u32 h 8 ≠ 4096 then PAGER_E_PAGESIZE
  else if read_le_u32 h 12 < 1 then PAGER_E_META
  else if read_le_u32 h 16 ≠ 0 then PAGER_E_META
  else PAGER_OK

/-- `pager_open` on an existing non-empty file of `len` bytes whose content
starts with the header bytes `h`: read the 20 header bytes (a file shorter
than 20 bytes makes `read_full` hit end-of-file, an I/O error), validate
them, guard the `page_count * page_size` product against signed-64-bit
overflow, and require `len >= page_count * page_size`.  On success the
handle holds the page size 4096 and the parsed page count. -/
def pager_open_nonempty (h : Page) (len : Nat) : Except Int (Nat × Nat) :=
  if len < 20 then .error PAGER_E_IOERR
  else
    let rc := validate_header h
    if rc ≠ PAGER_OK then .error rc
    else
      let pageSize := read_le_u32 h 8
      let pageCount := read_le_u32 h 12
      if pageCount > (2 ^ 63 - 1) / pageSize then .error PAGER_E_META
      else if len < pageSize * pageCount then .error PAGER_E_TRUNCATED
      else .ok (pageSize, pageCount)

/-! ### Table manager (table_manager.c) -/

/-- Compose a record id: `(page << 16) | (uint32_t)idx`, computed in
`uint32_t`. -/
def mkId (page idx : Nat) : Nat := (page <<< 16) % 2 ^ 32 ||| idx

/-- The alloc loop of `tblmgr_create`: `while (first >= page_count)
pager_alloc_page(...)`, with fuel. -/
def allocUntil (first : Nat) : PagerS → Nat → Except Int PagerS
  | _, 0 => .error E_FUEL
  | S, f + 1 =>
    if first ≥ S.pageCount then
      match pager_alloc_page S with
      | .error _ => .error TABLE_E_INVAL
      | .ok (S1, _) => allocUntil first S1 f
    else .ok S

/-- The `all 4096 bytes are zero` scan of `tblmgr_create`: check bytes
`i, i+1, ...` (`r` of them), stopping at the first non-zero byte. -/
def allZeroFrom (p : Page) : Nat → Nat → Bool
  | _, 0 => true
  | i, r + 1 => if readByte p i == 0 then allZeroFrom p (i + 1) r else false

/-- The full `all 4096 bytes are zero` check. -/
def allZero (p : Page) : Bool := allZeroFrom p 0 4096

/-- `tblmgr_create`. -/
def tblmgr_create (S : PagerS) (first : Nat) : Except Int PagerS :=
  if first = 0 then .error TABLE_E_INVAL
  else
    match allocUntil first S (first + 2) with
    | .error e => .error e
    | .ok S1 =>
      match pager_read S1 first with
      | .error _ => .error TABLE_E_INVAL
      | .ok buf =>
        if allZero buf then
          match tbl_init_leaf buf 128 with
          | (rc, nb) =>
            if rc ≠ TABLE_OK then .error rc
            else if tbl_validate nb ≠ TABLE_OK then .error (tbl_validate nb)
            else
              match pager_write S1 first nb with
              | .error _ => .error TABLE_E_INVAL
              | .ok S2 => .ok S2
        else
          let rc := tbl_validate buf
          if rc ≠ TABLE_OK then .error rc
          else if tbl_get_record_size buf = 128 ∧ tbl_get_used_count buf = 0 ∧
              tbl_get_next_page buf = 0 then .ok S1
          else .error TABLE_E_INVAL

/-- `memcpy(dst, rec_128b, 128)` into the page at byte offset `off`; the
record is a list of (at least) 128 bytes. -/
def memcpyIn (p : Page) (off : Nat) (rec : List Nat) : Page :=
  fun j => if off ≤ j ∧ j < off + 128 then rec.getD (j - off) 0 else p j

/-- `memset(ptr, 0, 128)` at byte offset `off`. -/
def zeroSlot (p : Page) (off : Nat) : Page :=
  fun j => if off ≤ j ∧ j < off + 128 then 0 else p j

/-- Byte-copy loop for reading a payload out of the page: bytes
`off + i, ..., off + i + r - 1`. -/
def readRecAux (p : Page) (off : Nat) : Nat → Nat → List Nat
  | _, 0 => []
  | i, r + 1 => readByte p (off + i) :: readRecAux p off (i + 1) r

/-- Copy a slot payload out of the page (`memcpy(out_rec128, src, 128)`). -/
def readRec (p : Page) (off : Nat) : List Nat := readRecAux p off 0 128

/-- The insert loop of `tblmgr_insert`, walking the chain from `page` with
explicit fuel.  Note that the C code discards the return value of
`tbl_slot_mark_used`. -/
def insertLoop (rec : List Nat) : PagerS → Nat → Nat → Except Int (PagerS × Nat)
  | _, _, 0 => .error E_FUEL
  | S, page, f + 1 =>
    match pager_read S page with
    | .error _ => .error TABLE_E_INVAL
    | .ok buf =>
      if tbl_validate buf ≠ TABLE_OK then .error (tbl_validate buf)
      else
        let cap := tbl_get_capacity buf
        let used := tbl_get_used_count buf
        let next := tbl_get_next_page buf
        if used < cap then
          let idx := tbl_slot_find_free buf
          if idx < 0 then .error TABLE_E_LAYOUT
          else
            match tbl_slot_ptr buf idx with
            | none => .error TABLE_E_INVAL
            | some off =>
              let buf1 := memcpyIn buf off rec
              let buf2 := (tbl_slot_mark_used buf1 idx).2
              match pager_write S page buf2 with
              | .error _ => .error TABLE_E_INVAL
              | .ok S1 => .ok (S1, mkId page idx.toNat)
        else if next ≠ 0 then insertLoop rec S next f
        else
          match pager_alloc_page S with
          | .error _ => .error TABLE_E_INVAL
          | .ok (S1, newPage) =>
            match tbl_init_leaf zeroPage 128 with
            | (rc, nb) =>
              if rc ≠ TABLE_OK then .error rc
              else
                match pager_write S1 newPage nb with
                | .error _ => .error TABLE_E_INVAL
                | .ok S2 =>
                  match pager_write S2 page (tbl_set_next_page buf newPage) with
                  | .error _ => .error TABLE_E_INVAL
                  | .ok S3 => insertLoop rec S3 newPage f

/-- `tblmgr_insert`.  The fuel `pageCount + 2` suffices for every acyclic
chain (at most one new page is allocated per call). -/
def tblmgr_insert (S : PagerS) (root : Nat) (rec : List Nat) : Except Int (PagerS × Nat) :=
  if root < 1 then .error TABLE_E_INVAL
  else insertLoop rec S root (S.pageCount + 2)

/-- `tblmgr_get`.  The pager state is returned alongside the result to make
the absence of writes visible: the C function only ever calls `pager_read`. -/
def tblmgr_get (S : PagerS) (id : Nat) : PagerS × Except Int (List Nat) :=
  let pageNo := id >>> 16
  let slot := id &&& 65535
  if pageNo = 0 ∨ pageNo ≥ S.pageCount then (S, .error TABLE_E_INVAL)
  else
    match pager_read S pageNo with
    | .error _ => (S, .error TABLE_E_INVAL)
    | .ok buf =>
      if tbl_validate buf ≠ TABLE_OK then (S, .error (tbl_validate buf))
      else if slot ≥ tbl_get_capacity buf then (S, .error TABLE_E_INVAL)
      else if ¬tbl_slot_is_used buf (Int.ofNat slot) then (S, .error TABLE_E_INVAL)
      else
        match tbl_slot_ptr buf (Int.ofNat slot) with
        | none => (S, .error TABLE_E_INVAL)
        | some off => (S, .ok (readRec buf off))

/-- `tblmgr_update`. -/
def tblmgr_update (S : PagerS) (id : Nat) (rec : List Nat) : Except Int PagerS :=
  let pageNo := id >>> 16
  let slot := id &&& 65535
  if pageNo = 0 ∨ pageNo ≥ S.pageCount then .error TABLE_E_INVAL
  else
    match pager_read S pageNo with
    | .error _ => .error TABLE_E_INVAL
    | .ok buf =>
      if tbl_validate buf ≠ TABLE_OK then .error (tbl_validate buf)
      else if slot ≥ tbl_get_capacity buf then .error TABLE_E_INVAL
      else if ¬tbl_slot_is_used buf (Int.ofNat slot) then .error TABLE_E_INVAL
      else
        match tbl_slot_ptr buf (Int.ofNat slot) with
        | none => .error TABLE_E_INVAL
        | some off =>
          match pager_write S pageNo (memcpyIn buf off rec) with
          | .error _ => .error TABLE_E_INVAL
          | .ok S1 => .ok S1

/-- `tblmgr_delete`: as `get`'s pre-checks, then zero the payload, clear the
bitmap bit (discarding `tbl_slot_mark_free`'s return code, as the C code
does) and write the page back. -/
def tblmgr_delete (S : PagerS) (id : Nat) : Except Int PagerS :=
  let pageNo := id >>> 16
  let slot := id &&& 65535
  if pageNo = 0 ∨ pageNo ≥ S.pageCount then .error TABLE_E_INVAL
  else
    match pager_read S pageNo with
    | .error _ => .error TABLE_E_INVAL
    | .ok buf =>
      if tbl_validate buf ≠ TABLE_OK then .error (tbl_validate buf)
      else if slot ≥ tbl_get_capacity buf then .error TABLE_E_INVAL
      else if ¬tbl_slot_is_used buf (Int.ofNat slot) then .error TABLE_E_INVAL
      else
        let buf1 :=
          match tbl_slot_ptr buf (Int.ofNat slot) with
          | none => buf
          | some off => zeroSlot buf off
        let buf2 := (tbl_slot_mark_free buf1 (Int.ofNat slot)).2
        match pager_write S pageNo buf2 with
        | .error _ => .error TABLE_E_INVAL
        | .ok S1 => .ok S1

/-- Slot loop of `tblmgr_scan` on one page: visit slots `i, i+1, ...`
(`rem` remaining) whose bitmap bit is set, threading the callback state; a
non-zero callback return value stops the iteration. -/
def scanSlots {σ : Type} (buf : Page) (pageNo : Nat)
    (cb : List Nat → Nat → σ → σ × Int) : Nat → Nat → σ → σ × Int
  | _, 0, u => (u, 0)
  | i, r + 1, u =>
    if tbl_slot_is_used buf (Int.ofNat i) then
      let recBytes :=
        match tbl_slot_ptr buf (Int.ofNat i) with
        | none => []
        | some off => readRec buf off
      let res := cb recBytes (mkId pageNo i) u
      if res.2 ≠ 0 then res
      else scanSlots buf pageNo cb (i + 1) r res.1
    else scanSlots buf pageNo cb (i + 1) r u

/-- Page loop of `tblmgr_scan`, with fuel.  Returns the final callback state
and the return code (0, or the non-zero callback code that stopped the
scan); validation errors are `.error`. -/
def scanLoop {σ : Type} (cb : List Nat → Nat → σ → σ × Int) :
    PagerS → Nat → σ → Nat → Except Int (σ × Int)
  | _, _, _, 0 => .error E_FUEL
  | S, page, u, f + 1 =>
    match pager_read S page with
    | .error _ => .error TABLE_E_INVAL
    | .ok buf =>
      if tbl_validate buf ≠ TABLE_OK then .error (tbl_validate buf)
      else
        let cap := tbl_get_capacity buf
        let next := tbl_get_next_page buf
        if next ≥ S.pageCount ∧ next ≠ 0 then .error TABLE_E_LAYOUT
        else
          let res := scanSlots buf page cb 0 cap u
          if res.2 ≠ 0 then .ok res
          else if next = 0 then .ok (res.1, 0)
          else scanLoop cb S next res.1 f

/-- `tblmgr_scan`. -/
def tblmgr_scan {σ : Type} (S : PagerS) (root : Nat)
    (cb : List Nat → Nat → σ → σ × Int) (u : σ) (fuel : Nat) : Except Int (σ × Int) :=
  if root = 0 then .error TABLE_E_INVAL
  else scanLoop cb S root u fuel

/-- A callback that collects every visited record id and never stops
early. -/
def cbId : List Nat → Nat → List Nat → List Nat × Int :=
  fun _ id acc => (acc ++ [id], 0)

/-- `tblmgr_scan` instantiated with `cbId`: the list of ids a scan visits. -/
def scanIds (S : PagerS) (root : Nat) (fuel : Nat) : Except Int (List Nat) :=
  match tblmgr_scan S root cbId [] fuel with
  | .error e => .error e
  | .ok (l, _) => .ok l

/-- Chain walk of `tblmgr_validate_all`, with fuel. -/
def validateAllLoop (S : PagerS) : Nat → Nat → Int
  | _, 0 => E_FUEL
  | page, f + 1 =>
    if page = 0 ∨ page ≥ S.pageCount then TABLE_E_LAYOUT
    else
      match pager_read S page with
      | .error _ => TABLE_E_INVAL
      | .ok buf =>
        if tbl_validate buf ≠ TABLE_OK then tbl_validate buf
        else
          let next := tbl_get_next_page buf
          if next = 0 then TABLE_OK
          else if next ≥ S.pageCount then TABLE_E_LAYOUT
          else validateAllLoop S next f

/-- `tblmgr_validate_all`. -/
def tblmgr_validate_all (S : PagerS) (first : Nat) : Int :=
  if first = 0 then TABLE_E_INVAL
  else validateAllLoop S first (S.pageCount + 1)

/-! ### Concrete states used by the scenario claims -/

/-- A fresh valid file header page advertising `count` pages. -/
def hdrPage (count : Nat) : Page :=
  write_le_u32 (write_le_u32 (write_le_u32 (write_le_u32
    (writeByte (writeByte (writeByte (writeByte zeroPage 0 77) 1 68) 2 66) 3 49)
    4 1) 8 4096) 12 count) 16 0

/-- A freshly initialized empty leaf page. -/
def emptyLeaf : Page := (tbl_init_leaf zeroPage 128).2

/-- A 2-page file: valid header, page 1 all zero. -/
def initS2 : PagerS :=
  { pageCount := 2, pages := fun q => if q = 0 then hdrPage 2 else zeroPage }

/-- The record payload `[j mod 256, ..., j mod 256]` (128 bytes). -/
def mkRec (j : Nat) : List Nat := List.replicate 128 (j % 256)

/-- Insert `n` records `mkRec j, mkRec (j+1), ...` at root page 1, collecting
the emitted ids. -/
def insertSeq : PagerS → Nat → Nat → Except Int (PagerS × List Nat)
  | S, _, 0 => .ok (S, [])
  | S, j, n + 1 =>
    match tblmgr_insert S 1 (mkRec j) with
    | .error e => .error e
    | .ok (S1, id) =>
      match insertSeq S1 (j + 1) n with
      | .error e => .error e
      | .ok (S2, ids) => .ok (S2, id :: ids)

/-- Scenario of §8.3-2: on a 2-page file, create at root 1, insert 32
payloads; report the 32 ids and the final page count. -/
def scenarioC4 : Option (List Nat × Nat) :=
  match tblmgr_create initS2 1 with
  | .error _ => none
  | .ok S1 =>
    match insertSeq S1 0 32 with
    | .error _ => none
    | .ok (S2, ids) => some (ids, S2.pageCount)

/-- A file whose table chain lives at page 65536: header page advertising
65537 pages, an empty leaf at page 65536, everything else zero.  This is
exactly the state `tblmgr_create(pager, 65536)` builds on a fresh file. -/
def Sbad : PagerS :=
  { pageCount := 65537,
    pages := fun q => if q = 0 then hdrPage 65537 else if q = 65536 then emptyLeaf else zeroPage }

/-- The record id of a successful insert, if any. -/
def insId (r : Except Int (PagerS × Nat)) : Option Nat :=
  match r with
  | .error _ => none
  | .ok (_, id) => some id

/-- The state after a successful insert (the input state otherwise). -/
def insState (S : PagerS) (r : Except Int (PagerS × Nat)) : PagerS :=
  match r with
  | .error _ => S
  | .ok (S1, _) => S1

/-- The state `Sbad` after inserting one record at root 65536. -/
def SbadIns : PagerS := insState Sbad (tblmgr_insert Sbad 65536 (mkRec 7))

/-- A leaf whose slot 0 is occupied. -/
def leafOne : Page := (tbl_slot_mark_used emptyLeaf 0).2

/-- `leafOne` chained to page 65537. -/
def leafOneNext : Page := tbl_set_next_page leafOne 65537

/-- A file with 131074 pages whose chain at root 1 is
page 1 (slot 0 used) → page 65537 (slot 0 used): because of the 16-bit id
packing, the record (65537, 0) and the record (1, 0) share the id 65536. -/
def Scx : PagerS :=
  { pageCount := 131074,
    pages := fun q =>
      if q = 0 then hdrPage 131074
      else if q = 1 then leafOneNext
      else if q = 65537 then leafOne
      else zeroPage }

/-- The result state of deleting record id 65536 (page 1, slot 0) in `Scx`. -/
def ScxDel : PagerS :=
  match tblmgr_delete Scx 65536 with
  | .error _ => Scx
  | .ok S1 => S1

/-! ### Basic byte-level lemmas -/

lemma readByte_lt (p : Page) (i : Nat) : readByte p i < 256 :=
  Nat.mod_lt _ (by norm_num)

lemma readByte_writeByte_self (p : Page) (a v : Nat) :
    readByte (writeByte p a v) a = v % 256 := by
  simp [readByte, writeByte]

lemma readByte_writeByte_other (p : Page) (a v i : Nat) (h : i ≠ a) :
    readByte (writeByte p a v) i = readByte p i := by
  simp [readByte, writeByte, h]

lemma readByte_memcpyIn_out (p : Page) (off : Nat) (l : List Nat) (j : Nat)
    (h : j < off ∨ off + 128 ≤ j) : readByte (memcpyIn p off l) j = readByte p j := by
  have hc : ¬(off ≤ j ∧ j < off + 128) := by omega
  simp [readByte, memcpyIn, hc]

lemma readByte_memcpyIn_in (p : Page) (off : Nat) (l : List Nat) (j : Nat)
    (h1 : off ≤ j) (h2 : j < off + 128) :
    readByte (memcpyIn p off l) j = l.getD (j - off) 0 % 256 := by
  have hc : off ≤ j ∧ j < off + 128 := ⟨h1, h2⟩
  simp [readByte, memcpyIn, hc]

lemma readByte_zeroSlot_out (p : Page) (off j : Nat)
    (h : j < off ∨ off + 128 ≤ j) : readByte (zeroSlot p off) j = readByte p j := by
  have hc : ¬(off ≤ j ∧ j < off + 128) := by omega
  simp [readByte, zeroSlot, hc]

lemma readByte_zeroSlot_in (p : Page) (off j : Nat)
    (h1 : off ≤ j) (h2 : j < off + 128) : readByte (zeroSlot p off) j = 0 := by
  have hc : off ≤ j ∧ j < off + 128 := ⟨h1, h2⟩
  simp [readByte, zeroSlot, hc]

lemma readByte_write_le_u16_other (p : Page) (off v i : Nat)
    (h1 : i ≠ off) (h2 : i ≠ off + 1) :
    readByte (write_le_u16 p off v) i = readByte p i := by
  simp [write_le_u16, readByte_writeByte_other _ _ _ _ h1, readByte_writeByte_other _ _ _ _ h2]

lemma read_le_u16_write_le_u16 (p : Page) (off v : Nat) :
    read_le_u16 (write_le_u16 p off v) off = v % 65536 := by
  have h1 : off ≠ off + 1 := by omega
  simp only [read_le_u16, write_le_u16, readByte_writeByte_self,
    readByte_writeByte_other _ _ _ _ h1]
  rw [Nat.shiftRight_eq_div_pow]
  norm_num
  omega

lemma read_le_u16_congr (p q : Page) (off : Nat)
    (h0 : readByte p off = readByte q off) (h1 : readByte p (off + 1) = readByte q (off + 1)) :
    read_le_u16 p off = read_le_u16 q off := by
  simp [read_le_u16, h0, h1]

lemma read_le_u32_congr (p q : Page) (off : Nat)
    (h0 : readByte p off = readByte q off) (h1 : readByte p (off + 1) = readByte q (off + 1))
    (h2 : readByte p (off + 2) = readByte q (off + 2))
    (h3 : readByte p (off + 3) = readByte q (off + 3)) :
    read_le_u32 p off = read_le_u32 q off := by
  simp [read_le_u32, h0, h1, h2, h3]

lemma readByte_write_le_u32_other (p : Page) (off v i : Nat)
    (h1 : i ≠ off) (h2 : i ≠ off + 1) (h3 : i ≠ off + 2) (h4 : i ≠ off + 3) :
    readByte (write_le_u32 p off v) i = readByte p i := by
  simp [write_le_u32, readByte_writeByte_other _ _ _ _ h1, readByte_writeByte_other _ _ _ _ h2,
    readByte_writeByte_other _ _ _ _ h3, readByte_writeByte_other _ _ _ _ h4]

lemma read_le_u16_lt (p : Page) (off : Nat) : read_le_u16 p off < 65536 := by
  have h0 := readByte_lt p off
  have h1 := readByte_lt p (off + 1)
  simp only [read_le_u16]
  omega

lemma read_le_u32_lt (p : Page) (off : Nat) : read_le_u32 p off < 2 ^ 32 := by
  have h0 := readByte_lt p off
  have h1 := readByte_lt p (off + 1)
  have h2 := readByte_lt p (off + 2)
  have h3 := readByte_lt p (off + 3)
  simp only [read_le_u32]
  omega

lemma read_le_u32_write_le_u32 (p : Page) (off v : Nat) :
    read_le_u32 (write_le_u32 p off v) off = v % 2 ^ 32 := by
  have e1 : off ≠ off + 1 := by omega
  have e2 : off ≠ off + 2 := by omega
  have e3 : off ≠ off + 3 := by omega
  have e4 : off + 1 ≠ off + 2 := by omega
  have e5 : off + 1 ≠ off + 3 := by omega
  have e6 : off + 2 ≠ off + 3 := by omega
  simp only [read_le_u32, write_le_u32, readByte_writeByte_self,
    readByte_writeByte_other _ _ _ _ e1, readByte_writeByte_other _ _ _ _ e2,
    readByte_writeByte_other _ _ _ _ e3, readByte_writeByte_other _ _ _ _ e4,
    readByte_writeByte_other _ _ _ _ e5, readByte_writeByte_other _ _ _ _ e6]
  rw [Nat.shiftRight_eq_div_pow, Nat.shiftRight_eq_div_pow, Nat.shiftRight_eq_div_pow]
  norm_num
  omega

/-! ### Bit-level facts about single bytes (all finite, proved by `decide`) -/

lemma byte_or_pop : ∀ b < 256, ∀ j < 8,
    b &&& (1 <<< j) = 0 → popByte (b ||| (1 <<< j)) = popByte b + 1 := by decide

lemma byte_and_not_pop : ∀ b < 256, ∀ j < 8,
    b &&& (1 <<< j) ≠ 0 → popByte (b &&& (255 ^^^ (1 <<< j))) + 1 = popByte b := by decide

lemma byte_or_test_self : ∀ b < 256, ∀ j < 8, (b ||| (1 <<< j)) &&& (1 <<< j) ≠ 0 := by decide

lemma byte_and_not_test_self : ∀ b < 256, ∀ j < 8,
    (b &&& (255 ^^^ (1 <<< j))) &&& (1 <<< j) = 0 := by decide

lemma byte_or_stray : ∀ b < 256, ∀ j < 7,
    b &&& 128 = 0 → (b ||| (1 <<< j)) &&& 128 = 0 := by decide

lemma byte_and_not_stray : ∀ b < 256, ∀ j < 8,
    b &&& 128 = 0 → (b &&& (255 ^^^ (1 <<< j))) &&& 128 = 0 := by decide

lemma byte_pop_pos : ∀ b < 256, ∀ j < 8, b &&& (1 <<< j) ≠ 0 → 1 ≤ popByte b := by decide

lemma byte_all_set : ∀ b < 256, (∀ j, j < 8 → b &&& (1 <<< j) ≠ 0) → b = 255 := by decide

lemma byte_low7_set : ∀ b < 256, (∀ j, j < 7 → b &&& (1 <<< j) ≠ 0) → b &&& 128 = 0 →
    b = 127 := by decide

lemma byte_255_all_set : ∀ j < 8, (255 : Nat) &&& (1 <<< j) ≠ 0 := by decide

/-! ### Record-id packing -/

lemma mul_pow_lor_eq_add (a b k : Nat) (hb : b < 2 ^ k) :
    a * 2 ^ k ||| b = a * 2 ^ k + b := by
  apply Nat.eq_of_testBit_eq
  intro i
  rw [Nat.testBit_or]
  rcases Nat.lt_or_ge i k with h | h
  · have h1 : (a * 2 ^ k).testBit i = false := by
      rw [← Nat.shiftLeft_eq, Nat.testBit_shiftLeft]
      simp [Nat.not_le.2 h]
    have hm : (a * 2 ^ k + b) % 2 ^ k = b := by
      rw [Nat.add_comm, Nat.add_mul_mod_self_right, Nat.mod_eq_of_lt hb]
    have h2 : (a * 2 ^ k + b).testBit i = b.testBit i := by
      have := Nat.testBit_mod_two_pow (a * 2 ^ k + b) k i
      rw [hm] at this
      simp [h] at this
      exact this.symm
    rw [h1, h2]
    simp
  · have h1 : b.testBit i = false :=
      Nat.testBit_lt_two_pow (lt_of_lt_of_le hb (Nat.pow_le_pow_right (by norm_num) h))
    have hd : (a * 2 ^ k + b) / 2 ^ k = a := by
      rw [Nat.mul_comm a (2 ^ k), Nat.mul_add_div (Nat.two_pow_pos k), Nat.div_eq_of_lt hb]
      omega
    have h2 : (a * 2 ^ k + b).testBit i = a.testBit (i - k) := by
      have hik : k + (i - k) = i := by omega
      have := Nat.testBit_shiftRight (i := k) (j := i - k) (a * 2 ^ k + b)
      rw [hik, Nat.shiftRight_eq_div_pow, hd] at this
      exact this.symm
    have h3 : (a * 2 ^ k).testBit i = a.testBit (i - k) := by
      rw [← Nat.shiftLeft_eq, Nat.testBit_shiftLeft]
      simp [h]
    rw [h1, h2, h3]
    simp

lemma mkId_eq (p i : Nat) (hp : p < 65536) (hi : i < 65536) :
    mkId p i = 65536 * p + i := by
  unfold mkId
  rw [Nat.shiftLeft_eq]
  have hlt : p * 2 ^ 16 < 2 ^ 32 := by
    have : p * 2 ^ 16 < 65536 * 2 ^ 16 := by
      exact (Nat.mul_lt_mul_right (Nat.two_pow_pos 16)).2 hp
    norm_num at this ⊢
    omega
  rw [Nat.mod_eq_of_lt hlt, mul_pow_lor_eq_add p i 16 (by norm_num [hi])]
  norm_num
  omega

lemma mkId_page (p i : Nat) (hp : p < 65536) (hi : i < 65536) :
    mkId p i >>> 16 = p := by
  rw [mkId_eq p i hp hi, Nat.shiftRight_eq_div_pow]
  norm_num
  omega

lemma mkId_slot (p i : Nat) (hp : p < 65536) (hi : i < 65536) :
    mkId p i &&& 65535 = i := by
  rw [mkId_eq p i hp hi]
  have h : (65536 * p + i) &&& 65535 = (65536 * p + i) % 2 ^ 16 := by
    have := Nat.and_pow_two_sub_one_eq_mod (65536 * p + i) 16
    norm_num at this
    exact this
  rw [h]
  omega

/-! ### Characterizing tbl_validate -/

lemma compute_capacity_128 : compute_capacity 128 = 31 := by decide

/-- Bit `k` of the occupancy bitmap (LSB-first within each byte). -/
def bitGet (p : Page) (k : Nat) : Bool :=
  readByte p (24 + k / 8) &&& (1 <<< (k % 8)) ≠ 0

/-- The bitmap invariant of the specification: the bitmap population count
equals `used_count`, and no bit at an index at or beyond the capacity is set
(within the `ceil(capacity/8)` bitmap bytes). -/
def bitmapInv (p : Page) : Prop :=
  popcountBM p ((tbl_get_capacity p + 7) / 8) = tbl_get_used_count p ∧
  ∀ k, tbl_get_capacity p ≤ k → k < 8 * ((tbl_get_capacity p + 7) / 8) → bitGet p k = false

lemma popcountBM_congr (p q : Page) (n : Nat)
    (h : ∀ k, k < n → readByte p (24 + k) = readByte q (24 + k)) :
    popcountBM p n = popcountBM q n := by
  induction n with
  | zero => rfl
  | succ m ih =>
    simp only [popcountBM]
    rw [ih (fun k hk => h k (by omega)), h m (by omega)]

lemma tbl_validate_congr (p q : Page)
    (h : ∀ i, i < 24 + (tbl_get_capacity p + 7) / 8 → readByte p i = readByte q i) :
    tbl_validate p = tbl_validate q := by
  have hk : tbl_get_kind p = tbl_get_kind q :=
    read_le_u16_congr _ _ _ (h 0 (by omega)) (h 1 (by omega))
  have hrs : tbl_get_record_size p = tbl_get_record_size q :=
    read_le_u16_congr _ _ _ (h 2 (by omega)) (h 3 (by omega))
  have hcap : tbl_get_capacity p = tbl_get_capacity q :=
    read_le_u16_congr _ _ _ (h 4 (by omega)) (h 5 (by omega))
  have hused : tbl_get_used_count p = tbl_get_used_count q :=
    read_le_u16_congr _ _ _ (h 6 (by omega)) (h 7 (by omega))
  have hpop : popcountBM p ((tbl_get_capacity p + 7) / 8) =
      popcountBM q ((tbl_get_capacity p + 7) / 8) :=
    popcountBM_congr p q _ (fun k hk => h (24 + k) (by omega))
  have hlast : readByte p (24 + (tbl_get_capacity p + 7) / 8 - 1) =
      readByte q (24 + (tbl_get_capacity p + 7) / 8 - 1) :=
    h _ (by omega)
  simp only [tbl_validate]
  rw [hpop, hlast, hk, hrs, hcap, hused]

/-- The full content of `tbl_validate page == TABLE_OK` (the capacity must
equal the recomputed value 31, under which the byte geometry is fixed). -/
lemma validate_ok_iff (p : Page) :
    tbl_validate p = TABLE_OK ↔
      tbl_get_kind p = 1 ∧ tbl_get_record_size p = 128 ∧ tbl_get_capacity p = 31 ∧
      tbl_get_used_count p ≤ 31 ∧ popcountBM p 4 = tbl_get_used_count p ∧
      readByte p 27 &&& 128 = 0 := by
  have hmask : (255 <<< 7) % 256 = 128 := by decide
  simp only [tbl_validate, hmask]
  constructor
  · intro h
    split_ifs at h with h1 h2 h3 h4 h5 h6 h7
    · simp [TABLE_E_BADKIND, TABLE_OK] at h
    · simp [TABLE_E_LAYOUT, TABLE_OK] at h
    · simp [TABLE_E_LAYOUT, TABLE_OK] at h
    · simp [TABLE_E_LAYOUT, TABLE_OK] at h
    · simp [TABLE_E_BITMAP, TABLE_OK] at h
    · simp [TABLE_E_LAYOUT, TABLE_OK] at h
    · simp [TABLE_E_BITMAP, TABLE_OK] at h
    · push_neg at h1 h2 h3 h4 h5
      have hrs : tbl_get_record_size p = 128 := h2
      rw [hrs, compute_capacity_128] at h3
      have hcap : tbl_get_capacity p = 31 := h3.2
      rw [hcap] at h4 h5 h7
      push_neg at h7
      refine ⟨h1, hrs, hcap, by omega, ?_, ?_⟩
      · have : (31 + 7) / 8 = 4 := by norm_num
        rw [this] at h5
        exact h5
      · have h8 := h7 (by norm_num)
        have : 24 + (31 + 7) / 8 - 1 = 27 := by norm_num
        rw [this] at h8
        exact h8
  · rintro ⟨h1, h2, h3, h4, h5, h6⟩
    rw [h1, h2, h3, compute_capacity_128]
    have hb : (31 + 7) / 8 = 4 := by norm_num
    rw [hb]
    have h27 : 24 + 4 - 1 = 27 := by norm_num
    rw [h27, h5]
    have hmask2 : (255 : Nat) <<< (31 % 8) % 256 = 128 := by decide
    simp only [ne_eq, not_true_eq_false, if_false, reduceIte, hmask2, h6]
    rw [if_neg (by simp : ¬((31 : Nat) < 1 ∨ False)),
      if_neg (by omega : ¬tbl_get_used_count p > 31),
      if_neg (by norm_num : ¬(24 + 4 + 31 * 128 > 4096)),
      if_neg (by simp : ¬(¬(31 : Nat) % 8 = 0 ∧ False))]

/-! ### Marking slots used / free -/

lemma byte_or_lt : ∀ b < 256, ∀ j < 8, b ||| (1 <<< j) < 256 := by decide

lemma mark_used_ok_inv (p : Page) (idx : Int)
    (h : (tbl_slot_mark_used p idx).1 = TABLE_OK) :
    ∃ i : Nat, idx = Int.ofNat i ∧ i < tbl_get_capacity p ∧
      tbl_get_used_count p < tbl_get_capacity p ∧
      readByte p (24 + i / 8) &&& (1 <<< (i % 8)) = 0 ∧
      (tbl_slot_mark_used p idx).2 =
        write_le_u16 (writeByte p (24 + i / 8)
          (readByte p (24 + i / 8) ||| (1 <<< (i % 8)))) 6 (tbl_get_used_count p + 1) := by
  simp only [tbl_slot_mark_used] at h ⊢
  split_ifs at h ⊢ with h1 h2 h3 h4 h5
  · simp [TABLE_E_INVAL, TABLE_OK] at h
  · simp [TABLE_E_INVAL, TABLE_OK] at h
  · simp [TABLE_E_LAYOUT, TABLE_OK] at h
  · simp [TABLE_E_FULL, TABLE_OK] at h
  · simp [TABLE_E_INVAL, TABLE_OK] at h
  · refine ⟨idx.toNat, (Int.toNat_of_nonneg (le_of_not_lt h1)).symm, by omega, by omega,
      by omega, rfl⟩

lemma mark_free_ok_inv (p : Page) (idx : Int)
    (h : (tbl_slot_mark_free p idx).1 = TABLE_OK) :
    ∃ i : Nat, idx = Int.ofNat i ∧ i < tbl_get_capacity p ∧
      tbl_get_used_count p ≤ tbl_get_capacity p ∧ 1 ≤ tbl_get_used_count p ∧
      readByte p (24 + i / 8) &&& (1 <<< (i % 8)) ≠ 0 ∧
      (tbl_slot_mark_free p idx).2 =
        write_le_u16 (writeByte p (24 + i / 8)
          (readByte p (24 + i / 8) &&& (255 ^^^ (1 <<< (i % 8))))) 6
          (tbl_get_used_count p - 1) := by
  simp only [tbl_slot_mark_free] at h ⊢
  split_ifs at h ⊢ with h1 h2 h3 h4 h5
  · simp [TABLE_E_INVAL, TABLE_OK] at h
  · simp [TABLE_E_INVAL, TABLE_OK] at h
  · simp [TABLE_E_LAYOUT, TABLE_OK] at h
  · simp [TABLE_E_INVAL, TABLE_OK] at h
  · simp [TABLE_E_INVAL, TABLE_OK] at h
  · refine ⟨idx.toNat, (Int.toNat_of_nonneg (le_of_not_lt h1)).symm, by omega, by omega,
      by omega, h5, rfl⟩

/-- Reads of the page produced by a bitmap-byte update plus the used-count
update (the write shape shared by `tbl_slot_mark_used` and
`tbl_slot_mark_free`). -/
lemma bm_update_read (p : Page) (a v u x : Nat) (hx6 : x ≠ 6) (hx7 : x ≠ 7) (hxa : x ≠ a) :
    readByte (write_le_u16 (writeByte p a v) 6 u) x = readByte p x := by
  rw [readByte_write_le_u16_other _ _ _ _ hx6 (by omega), readByte_writeByte_other _ _ _ _ hxa]

lemma bm_update_read_a (p : Page) (a v u : Nat) (ha6 : a ≠ 6) (ha7 : a ≠ 7) :
    readByte (write_le_u16 (writeByte p a v) 6 u) a = v % 256 := by
  rw [readByte_write_le_u16_other _ _ _ _ ha6 (by omega), readByte_writeByte_self]

lemma bm_update_used (p : Page) (a v u : Nat) (ha : 24 ≤ a) :
    tbl_get_used_count (write_le_u16 (writeByte p a v) 6 u) = u % 65536 := by
  unfold tbl_get_used_count
  rw [read_le_u16_write_le_u16]

lemma popcountBM_4 (p : Page) : popcountBM p 4 =
    popByte (readByte p 24) + popByte (readByte p 25) + popByte (readByte p 26) +
      popByte (readByte p 27) := by
  show popcountBM p (3 + 1) = _
  rw [popcountBM]
  show popcountBM p (2 + 1) + _ = _
  rw [popcountBM]
  show popcountBM p (1 + 1) + _ + _ = _
  rw [popcountBM]
  show popcountBM p (0 + 1) + _ + _ + _ = _
  rw [popcountBM]
  norm_num [popcountBM]

lemma popcountBM_4_update (p : Page) (a v u : Nat) (ha24 : 24 ≤ a) (ha27 : a ≤ 27) :
    popcountBM (write_le_u16 (writeByte p a v) 6 u) 4 + popByte (readByte p a) =
      popcountBM p 4 + popByte (v % 256) := by
  have hcase : a = 24 ∨ a = 25 ∨ a = 26 ∨ a = 27 := by omega
  rcases hcase with h | h | h | h <;> subst h
  · rw [popcountBM_4, popcountBM_4, bm_update_read_a _ _ _ _ (by omega) (by omega),
      bm_update_read _ _ _ _ 25 (by omega) (by omega) (by omega),
      bm_update_read _ _ _ _ 26 (by omega) (by omega) (by omega),
      bm_update_read _ _ _ _ 27 (by omega) (by omega) (by omega)]
    omega
  · rw [popcountBM_4, popcountBM_4, bm_update_read_a _ _ _ _ (by omega) (by omega),
      bm_update_read _ _ _ _ 24 (by omega) (by omega) (by omega),
      bm_update_read _ _ _ _ 26 (by omega) (by omega) (by omega),
      bm_update_read _ _ _ _ 27 (by omega) (by omega) (by omega)]
    omega
  · rw [popcountBM_4, popcountBM_4, bm_update_read_a _ _ _ _ (by omega) (by omega),
      bm_update_read _ _ _ _ 24 (by omega) (by omega) (by omega),
      bm_update_read _ _ _ _ 25 (by omega) (by omega) (by omega),
      bm_update_read _ _ _ _ 27 (by omega) (by omega) (by omega)]
    omega
  · rw [popcountBM_4, popcountBM_4, bm_update_read_a _ _ _ _ (by omega) (by omega),
      bm_update_read _ _ _ _ 24 (by omega) (by omega) (by omega),
      bm_update_read _ _ _ _ 25 (by omega) (by omega) (by omega),
      bm_update_read _ _ _ _ 26 (by omega) (by omega) (by omega)]
    omega

lemma validate_after_mark_used (p : Page) (i : Nat)
    (hv : tbl_validate p = TABLE_OK) (hi : i < 31)
    (hbit : readByte p (24 + i / 8) &&& (1 <<< (i % 8)) = 0)
    (hu : tbl_get_used_count p < 31) :
    tbl_validate (write_le_u16 (writeByte p (24 + i / 8)
        (readByte p (24 + i / 8) ||| (1 <<< (i % 8)))) 6
        (tbl_get_used_count p + 1)) = TABLE_OK := by
  obtain ⟨hk, hrs, hcap, hule, hpop, hstray⟩ := (validate_ok_iff p).1 hv
  have ha24 : 24 ≤ 24 + i / 8 := by omega
  have ha27 : 24 + i / 8 ≤ 27 := by omega
  have hb : readByte p (24 + i / 8) < 256 := readByte_lt p _
  have hm8 : i % 8 < 8 := by omega
  have hbnew : readByte p (24 + i / 8) ||| (1 <<< (i % 8)) < 256 :=
    byte_or_lt _ hb _ hm8
  have hpop1 : popByte (readByte p (24 + i / 8) ||| (1 <<< (i % 8))) =
      popByte (readByte p (24 + i / 8)) + 1 := byte_or_pop _ hb _ hm8 hbit
  apply (validate_ok_iff _).2
  refine ⟨?_, ?_, ?_, ?_, ?_, ?_⟩
  · show read_le_u16 _ 0 = 1
    rw [read_le_u16_congr _ p 0
      (bm_update_read _ _ _ _ 0 (by omega) (by omega) (by omega))
      (bm_update_read _ _ _ _ 1 (by omega) (by omega) (by omega))]
    exact hk
  · show read_le_u16 _ 2 = 128
    rw [read_le_u16_congr _ p 2
      (bm_update_read _ _ _ _ 2 (by omega) (by omega) (by omega))
      (bm_update_read _ _ _ _ 3 (by omega) (by omega) (by omega))]
    exact hrs
  · show read_le_u16 _ 4 = 31
    rw [read_le_u16_congr _ p 4
      (bm_update_read _ _ _ _ 4 (by omega) (by omega) (by omega))
      (bm_update_read _ _ _ _ 5 (by omega) (by omega) (by omega))]
    exact hcap
  · rw [bm_update_used _ _ _ _ ha24]
    omega
  · rw [bm_update_used _ _ _ _ ha24]
    have h4 := popcountBM_4_update p (24 + i / 8)
      (readByte p (24 + i / 8) ||| (1 <<< (i % 8))) (tbl_get_used_count p + 1) ha24 ha27
    rw [Nat.mod_eq_of_lt hbnew] at h4
    omega
  · by_cases hc : 24 + i / 8 = 27
    · have hd : i / 8 = 3 := by omega
      have hj7 : i % 8 < 7 := by omega
      rw [show (27 : Nat) = 24 + i / 8 from hc.symm,
        bm_update_read_a _ _ _ _ (by omega) (by omega), Nat.mod_eq_of_lt hbnew]
      apply byte_or_stray _ hb _ hj7
      rw [hc]
      exact hstray
    · rw [bm_update_read _ _ _ _ 27 (by omega) (by omega) (by omega)]
      exact hstray

lemma validate_after_mark_free (p : Page) (i : Nat)
    (hv : tbl_validate p = TABLE_OK) (hi : i < 31)
    (hbit : readByte p (24 + i / 8) &&& (1 <<< (i % 8)) ≠ 0)
    (hu1 : 1 ≤ tbl_get_used_count p) :
    tbl_validate (write_le_u16 (writeByte p (24 + i / 8)
        (readByte p (24 + i / 8) &&& (255 ^^^ (1 <<< (i % 8))))) 6
        (tbl_get_used_count p - 1)) = TABLE_OK := by
  obtain ⟨hk, hrs, hcap, hule, hpop, hstray⟩ := (validate_ok_iff p).1 hv
  have ha24 : 24 ≤ 24 + i / 8 := by omega
  have ha27 : 24 + i / 8 ≤ 27 := by omega
  have hb : readByte p (24 + i / 8) < 256 := readByte_lt p _
  have hm8 : i % 8 < 8 := by omega
  have hbnew : readByte p (24 + i / 8) &&& (255 ^^^ (1 <<< (i % 8))) < 256 :=
    lt_of_le_of_lt (Nat.and_le_left) hb
  have hpop1 : popByte (readByte p (24 + i / 8) &&& (255 ^^^ (1 <<< (i % 8)))) + 1 =
      popByte (readByte p (24 + i / 8)) := byte_and_not_pop _ hb _ hm8 hbit
  apply (validate_ok_iff _).2
  refine ⟨?_, ?_, ?_, ?_, ?_, ?_⟩
  · show read_le_u16 _ 0 = 1
    rw [read_le_u16_congr _ p 0
      (bm_update_read _ _ _ _ 0 (by omega) (by omega) (by omega))
      (bm_update_read _ _ _ _ 1 (by omega) (by omega) (by omega))]
    exact hk
  · show read_le_u16 _ 2 = 128
    rw [read_le_u16_congr _ p 2
      (bm_update_read _ _ _ _ 2 (by omega) (by omega) (by omega))
      (bm_update_read _ _ _ _ 3 (by omega) (by omega) (by omega))]
    exact hrs
  · show read_le_u16 _ 4 = 31
    rw [read_le_u16_congr _ p 4
      (bm_update_read _ _ _ _ 4 (by omega) (by omega) (by omega))
      (bm_update_read _ _ _ _ 5 (by omega) (by omega) (by omega))]
    exact hcap
  · rw [bm_update_used _ _ _ _ ha24]
    omega
  · rw [bm_update_used _ _ _ _ ha24]
    have h4 := popcountBM_4_update p (24 + i / 8)
      (readByte p (24 + i / 8) &&& (255 ^^^ (1 <<< (i % 8)))) (tbl_get_used_count p - 1)
      ha24 ha27
    rw [Nat.mod_eq_of_lt hbnew] at h4
    omega
  · by_cases hc : 24 + i / 8 = 27
    · rw [show (27 : Nat) = 24 + i / 8 from hc.symm,
        bm_update_read_a _ _ _ _ (by omega) (by omega), Nat.mod_eq_of_lt hbnew]
      apply byte_and_not_stray _ hb _ hm8
      rw [hc]
      exact hstray
    · rw [bm_update_read _ _ _ _ 27 (by omega) (by omega) (by omega)]
      exact hstray

lemma bitmapInv_of_validate (p : Page) (h : tbl_validate p = TABLE_OK) : bitmapInv p := by
  obtain ⟨hk, hrs, hcap, hule, hpop, hstray⟩ := (validate_ok_iff p).1 h
  constructor
  · rw [hcap]
    norm_num
    exact hpop
  · intro k h1 h2
    rw [hcap] at h1 h2
    norm_num at h2
    have hk31 : k = 31 := by omega
    subst hk31
    simp only [bitGet]
    have e1 : (1 : Nat) <<< (31 % 8) = 128 := by decide
    have e2 : 24 + 31 / 8 = 27 := by norm_num
    rw [e1, e2]
    simp [hstray]

/-- Claim C2: after every successful `tbl_slot_mark_used` or
`tbl_slot_mark_free` applied to a leaf page that passes `tbl_validate`, the
resulting page satisfies `popcount(bitmap) = used_count` and has no bitmap
bit set at any index at or beyond the capacity. -/
theorem claim_C2_bitmap_invariant (p : Page) (idx : Int)
    (hv : tbl_validate p = TABLE_OK) :
    ((tbl_slot_mark_used p idx).1 = TABLE_OK → bitmapInv (tbl_slot_mark_used p idx).2) ∧
    ((tbl_slot_mark_free p idx).1 = TABLE_OK → bitmapInv (tbl_slot_mark_free p idx).2) := by
  obtain ⟨hk, hrs, hcap, hule, hpop, hstray⟩ := (validate_ok_iff p).1 hv
  constructor
  · intro h
    obtain ⟨i, hidx, hicap, hucap, hbit, heq⟩ := mark_used_ok_inv p idx h
    rw [heq]
    exact bitmapInv_of_validate _
      (validate_after_mark_used p i hv (by omega) hbit (by omega))
  · intro h
    obtain ⟨i, hidx, hicap, hule2, hu1, hbit, heq⟩ := mark_free_ok_inv p idx h
    rw [heq]
    exact bitmapInv_of_validate _
      (validate_after_mark_free p i hv (by omega) hbit hu1)

/-- Witness for C2 at a concrete occupied leaf and slot index 1. -/
theorem claim_C2_bitmap_invariant_witness :
    tbl_validate leafOne = TABLE_OK ∧
      (((tbl_slot_mark_used leafOne 1).1 = TABLE_OK →
          bitmapInv (tbl_slot_mark_used leafOne 1).2) ∧
        ((tbl_slot_mark_free leafOne 1).1 = TABLE_OK →
          bitmapInv (tbl_slot_mark_free leafOne 1).2)) :=
  ⟨by decide, claim_C2_bitmap_invariant leafOne 1 (by decide)⟩

/-! ### Characterizing tbl_slot_find_free -/

lemma innerFrom_some (b base cap : Nat) : ∀ f j m : Nat,
    innerFrom b base cap j f = some m →
    j ≤ m ∧ m < j + f ∧ b &&& (1 <<< m) = 0 ∧ base + m < cap ∧
      ∀ k, j ≤ k → k < m → ¬(b &&& (1 <<< k) = 0 ∧ base + k < cap) := by
  intro f
  induction f with
  | zero => intro j m h; simp [innerFrom] at h
  | succ f ih =>
    intro j m h
    simp only [innerFrom] at h
    split_ifs at h with hc
    · have hm : m = j := by
        have := Option.some.inj h
        omega
      subst hm
      exact ⟨Nat.le_refl _, by omega, hc.1, hc.2, fun k hk1 hk2 => by omega⟩
    · obtain ⟨h1, h2, h3, h4, h5⟩ := ih (j + 1) m h
      refine ⟨by omega, by omega, h3, h4, fun k hk1 hk2 => ?_⟩
      by_cases hkj : k = j
      · subst hkj; exact hc
      · exact h5 k (by omega) hk2

lemma innerFrom_none (b base cap : Nat) : ∀ f j : Nat,
    innerFrom b base cap j f = none →
    ∀ k, j ≤ k → k < j + f → ¬(b &&& (1 <<< k) = 0 ∧ base + k < cap) := by
  intro f
  induction f with
  | zero => intro j h k hk1 hk2; omega
  | succ f ih =>
    intro j h k hk1 hk2
    simp only [innerFrom] at h
    split_ifs at h with hc
    by_cases hkj : k = j
    · subst hkj; exact hc
    · exact ih (j + 1) h k (by omega) (by omega)

lemma scanBytes_some (p : Page) (cap : Nat) : ∀ r i idx : Nat,
    scanBytes p cap i r = some idx →
    8 * i ≤ idx ∧ idx < 8 * (i + r) ∧
      readByte p (24 + idx / 8) &&& (1 <<< (idx % 8)) = 0 ∧ idx < cap ∧
      ∀ k, 8 * i ≤ k → k < idx →
        ¬(readByte p (24 + k / 8) &&& (1 <<< (k % 8)) = 0 ∧ k < cap) := by
  intro r
  induction r with
  | zero => intro i idx h; simp [scanBytes] at h
  | succ r ih =>
    intro i idx h
    simp only [scanBytes] at h
    split_ifs at h with hb
    · cases hin : innerFrom (readByte p (24 + i)) (8 * i) cap 0 8 with
      | some j =>
        rw [hin] at h
        have hidx : idx = 8 * i + j := (Option.some.inj h).symm
        obtain ⟨hj0, hj8, hjbit, hjcap, hjmin⟩ := innerFrom_some _ _ _ 8 0 j hin
        have hdiv : idx / 8 = i := by omega
        have hmod : idx % 8 = j := by omega
        refine ⟨by omega, by omega, ?_, by omega, ?_⟩
        · rw [hdiv, hmod]; exact hjbit
        · intro k hk1 hk2 hk3
          have hkdiv : k / 8 = i := by omega
          have hkmod : k % 8 = k - 8 * i := by omega
          rw [hkdiv, hkmod] at hk3
          exact hjmin (k - 8 * i) (by omega) (by omega) ⟨hk3.1, by have := hk3.2; omega⟩
      | none =>
        rw [hin] at h
        obtain ⟨h1, h2, h3, h4, h5⟩ := ih (i + 1) idx h
        refine ⟨by omega, by omega, h3, h4, ?_⟩
        intro k hk1 hk2 hk3
        by_cases hk8 : k < 8 * (i + 1)
        · have hkdiv : k / 8 = i := by omega
          have hkmod : k % 8 = k - 8 * i := by omega
          rw [hkdiv, hkmod] at hk3
          exact innerFrom_none _ _ _ 8 0 hin (k - 8 * i) (by omega) (by omega)
            ⟨hk3.1, by have := hk3.2; omega⟩
        · exact h5 k (by omega) hk2 hk3
    · push_neg at hb
      obtain ⟨h1, h2, h3, h4, h5⟩ := ih (i + 1) idx h
      refine ⟨by omega, by omega, h3, h4, ?_⟩
      intro k hk1 hk2 hk3
      by_cases hk8 : k < 8 * (i + 1)
      · have hkdiv : k / 8 = i := by omega
        rw [hkdiv, hb] at hk3
        exact byte_255_all_set (k % 8) (by omega) hk3.1
      · exact h5 k (by omega) hk2 hk3

lemma scanBytes_none (p : Page) (cap : Nat) : ∀ r i : Nat,
    scanBytes p cap i r = none →
    ∀ k, 8 * i ≤ k → k < 8 * (i + r) →
      ¬(readByte p (24 + k / 8) &&& (1 <<< (k % 8)) = 0 ∧ k < cap) := by
  intro r
  induction r with
  | zero => intro i h k hk1 hk2; omega
  | succ r ih =>
    intro i h k hk1 hk2 hk3
    simp only [scanBytes] at h
    split_ifs at h with hb
    · cases hin : innerFrom (readByte p (24 + i)) (8 * i) cap 0 8 with
      | some j => rw [hin] at h; simp at h
      | none =>
        rw [hin] at h
        by_cases hk8 : k < 8 * (i + 1)
        · have hkdiv : k / 8 = i := by omega
          have hkmod : k % 8 = k - 8 * i := by omega
          rw [hkdiv, hkmod] at hk3
          exact innerFrom_none _ _ _ 8 0 hin (k - 8 * i) (by omega) (by omega)
            ⟨hk3.1, by have := hk3.2; omega⟩
        · exact ih (i + 1) h k (by omega) (by omega) hk3
    · push_neg at hb
      by_cases hk8 : k < 8 * (i + 1)
      · have hkdiv : k / 8 = i := by omega
        rw [hkdiv, hb] at hk3
        exact byte_255_all_set (k % 8) (by omega) hk3.1
      · exact ih (i + 1) h k (by omega) (by omega) hk3

lemma popByte_255 : popByte 255 = 8 := by decide

lemma ofNat_ne_neg_one (i : Nat) : Int.ofNat i ≠ -1 := by
  rw [Int.ofNat_eq_coe]
  omega

lemma toNat_ofNat_id (i : Nat) : (Int.ofNat i).toNat = i := rfl

lemma popByte_127 : popByte 127 = 7 := by decide

lemma find_free_spec (p : Page) (hv : tbl_validate p = TABLE_OK) :
    (tbl_slot_find_free p = -1 ↔ tbl_get_used_count p = 31) ∧
    ∀ i : Nat, tbl_slot_find_free p = Int.ofNat i →
      i < 31 ∧ readByte p (24 + i / 8) &&& (1 <<< (i % 8)) = 0 ∧
      ∀ k, k < i → readByte p (24 + k / 8) &&& (1 <<< (k % 8)) ≠ 0 := by
  obtain ⟨hk, hrs, hcap, hule, hpop, hstray⟩ := (validate_ok_iff p).1 hv
  simp only [tbl_slot_find_free, hcap]
  by_cases hu : tbl_get_used_count p = 31
  · rw [if_pos (Or.inr hu)]
    refine ⟨⟨fun _ => hu, fun _ => rfl⟩, fun i hi => absurd hi.symm (ofNat_ne_neg_one i)⟩
  · rw [if_neg (by omega : ¬((31 : Nat) = 0 ∨ tbl_get_used_count p = 31)),
      show (31 + 7) / 8 = 4 by norm_num]
    cases hs : scanBytes p 31 0 4 with
    | some idx =>
      obtain ⟨h1, h2, h3, h4, h5⟩ := scanBytes_some p 31 4 0 idx hs
      refine ⟨⟨fun h => absurd h (ofNat_ne_neg_one idx), fun h => absurd h hu⟩,
        fun i hi => ?_⟩
      have hii : idx = i := Int.ofNat.inj hi
      subst hii
      refine ⟨h4, h3, fun k hk hclear => h5 k (by omega) hk ⟨hclear, by omega⟩⟩
    | none =>
      exfalso
      have hall := scanBytes_none p 31 4 0 hs
      have hset : ∀ k, k < 31 → readByte p (24 + k / 8) &&& (1 <<< (k % 8)) ≠ 0 := by
        intro k hk hclear
        exact hall k (by omega) (by omega) ⟨hclear, hk⟩
      have hb0 : readByte p 24 = 255 := by
        apply byte_all_set _ (readByte_lt p 24)
        intro j hj
        have h := hset j (by omega)
        rw [show 24 + j / 8 = 24 by omega, show j % 8 = j by omega] at h
        exact h
      have hb1 : readByte p 25 = 255 := by
        apply byte_all_set _ (readByte_lt p 25)
        intro j hj
        have h := hset (8 + j) (by omega)
        rw [show 24 + (8 + j) / 8 = 25 by omega, show (8 + j) % 8 = j by omega] at h
        exact h
      have hb2 : readByte p 26 = 255 := by
        apply byte_all_set _ (readByte_lt p 26)
        intro j hj
        have h := hset (16 + j) (by omega)
        rw [show 24 + (16 + j) / 8 = 26 by omega, show (16 + j) % 8 = j by omega] at h
        exact h
      have hb3 : readByte p 27 = 127 := by
        apply byte_low7_set _ (readByte_lt p 27) _ hstray
        intro j hj
        have h := hset (24 + j) (by omega)
        rw [show 24 + (24 + j) / 8 = 27 by omega, show (24 + j) % 8 = j by omega] at h
        exact h
      rw [popcountBM_4, hb0, hb1, hb2, hb3, popByte_255, popByte_127] at hpop
      omega

lemma find_free_cases (p : Page) :
    tbl_slot_find_free p = -1 ∨ ∃ i : Nat, tbl_slot_find_free p = Int.ofNat i := by
  simp only [tbl_slot_find_free]
  split_ifs
  · left; rfl
  · cases hs : scanBytes p (tbl_get_capacity p) 0 ((tbl_get_capacity p + 7) / 8) with
    | some idx => right; exact ⟨idx, rfl⟩
    | none => left; rfl

/-- Claim C6: on a leaf page that passes `tbl_validate`, `tbl_slot_find_free`
(a pure function of the buffer, which it does not mutate) returns -1 exactly
when `used_count` equals the capacity, and any returned index is the lowest
index below the capacity whose bitmap bit is clear. -/
theorem claim_C6_find_free_lowest (p : Page) (hv : tbl_validate p = TABLE_OK) :
    (tbl_slot_find_free p = -1 ↔ tbl_get_used_count p = tbl_get_capacity p) ∧
    ∀ i : Nat, tbl_slot_find_free p = Int.ofNat i →
      i < tbl_get_capacity p ∧ bitGet p i = false ∧ ∀ k, k < i → bitGet p k = true := by
  obtain ⟨hk, hrs, hcap, hule, hpop, hstray⟩ := (validate_ok_iff p).1 hv
  obtain ⟨hiff, hsome⟩ := find_free_spec p hv
  rw [hcap]
  refine ⟨hiff, fun i hi => ?_⟩
  obtain ⟨h1, h2, h3⟩ := hsome i hi
  refine ⟨h1, by simp [bitGet, h2], fun k hk => by simp [bitGet, h3 k hk]⟩

/-- Witness for C6 at a leaf whose slot 0 is occupied (`find_free` = 1). -/
theorem claim_C6_find_free_lowest_witness :
    tbl_validate leafOne = TABLE_OK ∧
      ((tbl_slot_find_free leafOne = -1 ↔
          tbl_get_used_count leafOne = tbl_get_capacity leafOne) ∧
        ∀ i : Nat, tbl_slot_find_free leafOne = Int.ofNat i →
          i < tbl_get_capacity leafOne ∧ bitGet leafOne i = false ∧
            ∀ k, k < i → bitGet leafOne k = true) :=
  ⟨by decide, claim_C6_find_free_lowest leafOne (by decide)⟩

lemma mark_used_ok_pos (p : Page) (i : Nat) (hi : i < tbl_get_capacity p)
    (hu : tbl_get_used_count p < tbl_get_capacity p)
    (hbit : readByte p (24 + i / 8) &&& (1 <<< (i % 8)) = 0) :
    (tbl_slot_mark_used p (Int.ofNat i)).1 = TABLE_OK := by
  simp only [tbl_slot_mark_used, toNat_ofNat_id]
  split_ifs with h1 h2 h3 h4 h5
  · rw [Int.ofNat_eq_coe] at h1; omega
  · exact absurd h2 (by omega)
  · omega
  · omega
  · exact absurd hbit h5
  · rfl

/-- Claim C9: on a page that passes `tbl_validate` and has
`used_count < capacity`, `tbl_slot_mark_used` applied to the index returned
by `tbl_slot_find_free` always returns `TABLE_OK`, so the error return that
`tblmgr_insert` discards is unreachable on insert's validated-page path. -/
theorem claim_C9_discarded_mark_used_ok (p : Page) (hv : tbl_validate p = TABLE_OK)
    (hu : tbl_get_used_count p < tbl_get_capacity p) :
    (tbl_slot_mark_used p (tbl_slot_find_free p)).1 = TABLE_OK := by
  obtain ⟨hk, hrs, hcap, hule, hpop, hstray⟩ := (validate_ok_iff p).1 hv
  obtain ⟨hiff, hsome⟩ := find_free_spec p hv
  rcases find_free_cases p with hf | ⟨i, hf⟩
  · rw [hcap] at hu
    exact absurd (hiff.1 hf) (by omega)
  · rw [hf]
    obtain ⟨hi, hbit, _⟩ := hsome i hf
    exact mark_used_ok_pos p i (by omega) hu hbit

/-- Witness for C9 at a leaf whose slot 0 is occupied. -/
theorem claim_C9_discarded_mark_used_ok_witness :
    tbl_validate leafOne = TABLE_OK ∧
      tbl_get_used_count leafOne < tbl_get_capacity leafOne ∧
      (tbl_slot_mark_used leafOne (tbl_slot_find_free leafOne)).1 = TABLE_OK :=
  ⟨by decide, by decide, claim_C9_discarded_mark_used_ok leafOne (by decide) (by decide)⟩

/-! ### Claim C10: tblmgr_get performs no writes -/

/-- Claim C10: `tblmgr_get` never writes.  For every pager state and every id,
whether the lookup succeeds or fails, the pager state component of the result
is the input state: page count and the contents of every page are unchanged
(the code only ever calls `pager_read`). -/
theorem claim_C10_get_never_writes (S : PagerS) (id : Nat) :
    (tblmgr_get S id).1 = S := by
  simp only [tblmgr_get]
  repeat' split
  all_goals rfl

/-! ### Claim C5: pager_open header validation -/

/-- Claim C5: opening an existing non-empty file (large enough that the
20-byte header read succeeds) fails with `bad_magic` when the first four
bytes are not "MDB1"; with `bad_version` when the magic is good but the
version is not 1; with `bad_pagesize` when additionally the page size is not
4096; with `bad_metadata` when additionally the page count is 0, or the
flags are non-zero; with `truncated_file` when the header is valid but the
file length is below `page_count * 4096`; and it succeeds when every header
field is valid and the length strictly exceeds `page_count * 4096`. -/
theorem claim_C5_open_header_errors (h : Page) (len : Nat) (hlen : 20 ≤ len) :
    (¬(readByte h 0 = 77 ∧ readByte h 1 = 68 ∧ readByte h 2 = 66 ∧ readByte h 3 = 49) →
      pager_open_nonempty h len = .error PAGER_E_MAGIC) ∧
    ((readByte h 0 = 77 ∧ readByte h 1 = 68 ∧ readByte h 2 = 66 ∧ readByte h 3 = 49) →
      read_le_u32 h 4 ≠ 1 → pager_open_nonempty h len = .error PAGER_E_VERSION) ∧
    ((readByte h 0 = 77 ∧ readByte h 1 = 68 ∧ readByte h 2 = 66 ∧ readByte h 3 = 49) →
      read_le_u32 h 4 = 1 → read_le_u32 h 8 ≠ 4096 →
      pager_open_nonempty h len = .error PAGER_E_PAGESIZE) ∧
    ((readByte h 0 = 77 ∧ readByte h 1 = 68 ∧ readByte h 2 = 66 ∧ readByte h 3 = 49) →
      read_le_u32 h 4 = 1 → read_le_u32 h 8 = 4096 → read_le_u32 h 12 = 0 →
      pager_open_nonempty h len = .error PAGER_E_META) ∧
    ((readByte h 0 = 77 ∧ readByte h 1 = 68 ∧ readByte h 2 = 66 ∧ readByte h 3 = 49) →
      read_le_u32 h 4 = 1 → read_le_u32 h 8 = 4096 → 1 ≤ read_le_u32 h 12 →
      read_le_u32 h 16 ≠ 0 → pager_open_nonempty h len = .error PAGER_E_META) ∧
    ((readByte h 0 = 77 ∧ readByte h 1 = 68 ∧ readByte h 2 = 66 ∧ readByte h 3 = 49) →
      read_le_u32 h 4 = 1 → read_le_u32 h 8 = 4096 → 1 ≤ read_le_u32 h 12 →
      read_le_u32 h 16 = 0 → len < 4096 * read_le_u32 h 12 →
      pager_open_nonempty h len = .error PAGER_E_TRUNCATED) ∧
    ((readByte h 0 = 77 ∧ readByte h 1 = 68 ∧ readByte h 2 = 66 ∧ readByte h 3 = 49) →
      read_le_u32 h 4 = 1 → read_le_u32 h 8 = 4096 → 1 ≤ read_le_u32 h 12 →
      read_le_u32 h 16 = 0 → 4096 * read_le_u32 h 12 < len →
      pager_open_nonempty h len = .ok (4096, read_le_u32 h 12)) := by
  have hnl : ¬(len < 20) := by omega
  have hcnt := read_le_u32_lt h 12
  have hov : ¬(2251799813685247 < read_le_u32 h 12) := by omega
  refine ⟨?_, ?_, ?_, ?_, ?_, ?_, ?_⟩
  · intro hm
    simp only [pager_open_nonempty, validate_header, if_neg hnl]
    simp [hm, PAGER_E_MAGIC, PAGER_OK]
  · intro hm hv
    simp only [pager_open_nonempty, validate_header, if_neg hnl]
    simp [hm, hv, PAGER_E_VERSION, PAGER_OK]
  · intro hm hv hps
    simp only [pager_open_nonempty, validate_header, if_neg hnl]
    simp [hm, hv, hps, PAGER_E_PAGESIZE, PAGER_OK]
  · intro hm hv hps hc
    have hc1 : read_le_u32 h 12 < 1 := by omega
    simp only [pager_open_nonempty, validate_header, if_neg hnl]
    simp [hm, hv, hps, hc1, PAGER_E_META, PAGER_OK]
  · intro hm hv hps hc hf
    have hc1 : ¬(read_le_u32 h 12 < 1) := by omega
    simp only [pager_open_nonempty, validate_header, if_neg hnl]
    simp [hm, hv, hps, hc1, hf, PAGER_E_META, PAGER_OK]
  · intro hm hv hps hc hf htr
    have hc1 : ¬(read_le_u32 h 12 < 1) := by omega
    simp only [pager_open_nonempty, validate_header, if_neg hnl]
    simp [hm, hv, hps, hc1, hf, hov, htr, PAGER_OK, PAGER_E_TRUNCATED]
  · intro hm hv hps hc hf hgt
    have hc1 : ¬(read_le_u32 h 12 < 1) := by omega
    have htr : ¬(len < 4096 * read_le_u32 h 12) := by omega
    simp only [pager_open_nonempty, validate_header, if_neg hnl]
    simp [hm, hv, hps, hc1, hf, hov, htr, PAGER_OK]

/-- Witness for C5: a valid header advertising 2 pages, file length 8193
(strictly above 2 * 4096), opens successfully. -/
theorem claim_C5_open_header_errors_witness :
    (20 : Nat) ≤ 8193 ∧
      pager_open_nonempty (hdrPage 2) 8193 = .ok (4096, read_le_u32 (hdrPage 2) 12) :=
  ⟨by norm_num,
    (claim_C5_open_header_errors (hdrPage 2) 8193 (by norm_num)).2.2.2.2.2.2
      (by decide) (by decide) (by decide) (by decide) (by decide) (by decide)⟩

/-! ### Claim C3: silent truncation of record ids -/

/-- Claim C3 (refuted by the code — the claim itself is the spec's "do not
silently truncate" requirement): on the chain rooted at page 65536 — exactly
the chain `tblmgr_create(pager, 65536)` builds, and one `tblmgr_validate_all`
accepts — `tblmgr_insert` succeeds and emits id 0, whose decoded page
`0 >>> 16 = 0` differs from the page 65536 the record was placed on.  The
insert reports success instead of failing, i.e. the id is silently
truncated. -/
theorem claim_C3_insert_truncates_silently :
    tblmgr_validate_all Sbad 65536 = TABLE_OK ∧
    insId (tblmgr_insert Sbad 65536 (mkRec 7)) = some 0 ∧
    (0 : Nat) >>> 16 = 0 ∧ (0 : Nat) ≠ 65536 :=
  ⟨by decide, by decide, by decide, by decide⟩

/-! ### Claim C4: the chain-growth scenario -/

/-- The state after `tblmgr_create initS2 1`. -/
def createdS : PagerS :=
  { pageCount := 2, pages := fun q => if q = 1 then emptyLeaf else initS2.pages q }

lemma allZeroFrom_zeroPage : ∀ r i, allZeroFrom zeroPage i r = true := by
  intro r
  induction r with
  | zero => intro i; rfl
  | succ r ih =>
    intro i
    simp only [allZeroFrom, readByte, zeroPage]
    exact ih (i + 1)

lemma create_initS2 : tblmgr_create initS2 1 = .ok createdS := by
  have hz : allZero zeroPage = true := allZeroFrom_zeroPage 4096 0
  have h1 : allocUntil 1 initS2 3 = .ok initS2 := by
    simp only [allocUntil, initS2]
    norm_num
  have h2 : pager_read initS2 1 = .ok zeroPage := rfl
  have h3 : tbl_init_leaf zeroPage 128 = (TABLE_OK, emptyLeaf) := rfl
  have h4 : tbl_validate emptyLeaf = TABLE_OK := by decide
  have h5 : pager_write initS2 1 emptyLeaf = .ok createdS := rfl
  simp only [tblmgr_create, h1, h2, h3, hz, h4, h5]
  norm_num

/-- Claim C4: on a 2-page file with an empty leaf table created at root
page 1, the 32-insert scenario emits ids `0x00010000 .. 0x0001001E` for the
first 31 inserts (page 1, slots 0..30, in order), then `0x00020000`
(page = the previous page count 2, slot 0) for the 32nd, and the page count
grows by exactly one (2 to 3); moreover `pager_alloc_page` always returns
the page count from before the call. -/
theorem claim_C4_insert_until_chain_grows :
    scenarioC4 = some (((List.range 31).map fun k => 65536 + k) ++ [131072], 3) ∧
    ∀ (S : PagerS) (r : PagerS × Nat), pager_alloc_page S = .ok r → r.2 = S.pageCount := by
  constructor
  · unfold scenarioC4
    rw [create_initS2]
    rfl
  · intro S r h
    simp only [pager_alloc_page] at h
    by_cases h1 : S.pageCount = 2 ^ 32 - 1
    · rw [if_pos h1] at h; exact absurd h (by simp)
    · rw [if_neg h1] at h
      by_cases h2 : S.pageCount * 4096 > 2 ^ 63 - 1 ∨ S.pageCount * 4096 + 4096 > 2 ^ 63 - 1
      · rw [if_pos h2] at h; exact absurd h (by simp)
      · rw [if_neg h2] at h
        rw [← Except.ok.inj h]

/-- The result of allocating a page on the fresh 2-page file. -/
def allocW : PagerS × Nat :=
  match pager_alloc_page initS2 with
  | .ok r => r
  | .error _ => (initS2, 0)

/-- Witness for the `pager_alloc_page` clause of C4 at a concrete pager. -/
theorem claim_C4_insert_until_chain_grows_witness :
    pager_alloc_page initS2 = .ok allocW ∧ allocW.2 = initS2.pageCount :=
  ⟨rfl, claim_C4_insert_until_chain_grows.2 initS2 allocW rfl⟩

/-! ### Characterizing the pager operations -/

lemma pager_read_ok (S : PagerS) (no : Nat) (h : no < S.pageCount)
    (h2 : no < 65536) : pager_read S no = .ok (S.pages no) := by
  unfold pager_read
  rw [if_neg (by omega), if_neg (by omega)]

lemma pager_read_ok_inv (S : PagerS) (no : Nat) (buf : Page)
    (h : pager_read S no = .ok buf) : no < S.pageCount ∧ buf = S.pages no := by
  unfold pager_read at h
  split_ifs at h with h1 h2
  exact ⟨by omega, (Except.ok.inj h).symm⟩

lemma pager_read_range (S : PagerS) (no : Nat) (h : S.pageCount ≤ no) :
    pager_read S no = .error PAGER_E_RANGE := by
  unfold pager_read
  rw [if_pos (by omega)]

/-- The state with page `no` replaced (the effect of a successful
`pager_write`). -/
def setPage (S : PagerS) (no : Nat) (buf : Page) : PagerS :=
  { S with pages := fun q => if q = no then buf else S.pages q }

lemma pager_write_ok (S : PagerS) (no : Nat) (buf : Page) (h : no < S.pageCount)
    (h2 : no < 65536) : pager_write S no buf = .ok (setPage S no buf) := by
  unfold pager_write setPage
  rw [if_neg (by omega), if_neg (by omega)]

lemma pager_write_ok_inv (S : PagerS) (no : Nat) (buf : Page) (S2 : PagerS)
    (h : pager_write S no buf = .ok S2) :
    no < S.pageCount ∧ S2 = setPage S no buf := by
  unfold pager_write at h
  split_ifs at h with h1 h2
  exact ⟨by omega, (Except.ok.inj h).symm⟩

lemma pager_alloc_obs (S : PagerS) (pr : PagerS × Nat)
    (h : pager_alloc_page S = .ok pr) (h1 : 1 ≤ S.pageCount) :
    pr.2 = S.pageCount ∧ pr.1.pageCount = S.pageCount + 1 ∧
      pr.1.pages S.pageCount = zeroPage ∧
      ∀ q, q ≠ 0 → q ≠ S.pageCount → pr.1.pages q = S.pages q := by
  simp only [pager_alloc_page] at h
  by_cases hc1 : S.pageCount = 2 ^ 32 - 1
  · rw [if_pos hc1] at h; exact absurd h (by simp)
  · rw [if_neg hc1] at h
    by_cases hc2 : S.pageCount * 4096 > 2 ^ 63 - 1 ∨ S.pageCount * 4096 + 4096 > 2 ^ 63 - 1
    · rw [if_pos hc2] at h; exact absurd h (by simp)
    · rw [if_neg hc2] at h
      rw [← Except.ok.inj h]
      refine ⟨rfl, rfl, ?_, ?_⟩
      · show (if S.pageCount = 0 then _ else if S.pageCount = S.pageCount then zeroPage
          else S.pages S.pageCount) = zeroPage
        rw [if_neg (by omega), if_pos rfl]
      · intro q hq0 hqc
        show (if q = 0 then _ else if q = S.pageCount then zeroPage else S.pages q) =
          S.pages q
        rw [if_neg hq0, if_neg hqc]

/-! ### Reading a freshly copied record back -/

lemma readRecAux_drop (q : Page) (off : Nat) (l : List Nat) (hlen : l.length = 128)
    (h : ∀ k, k < 128 → readByte q (off + k) = l.getD k 0) : ∀ r i, i + r = 128 →
    readRecAux q off i r = l.drop i := by
  intro r
  induction r with
  | zero =>
    intro i hi
    rw [show i = l.length by omega]
    rw [List.drop_length]
    rfl
  | succ r ih =>
    intro i hi
    rw [readRecAux, List.drop_eq_getElem_cons (by omega : i < l.length)]
    congr 1
    · rw [h i (by omega), List.getD_eq_getElem l 0 (by omega)]
    · exact ih (i + 1) (by omega)

lemma readRec_eq (q : Page) (off : Nat) (l : List Nat) (hlen : l.length = 128)
    (hbytes : ∀ b ∈ l, b < 256)
    (h : ∀ k, k < 128 → readByte q (off + k) = l.getD k 0 % 256) :
    readRec q off = l := by
  have h2 : ∀ k, k < 128 → readByte q (off + k) = l.getD k 0 := by
    intro k hk
    rw [h k hk, Nat.mod_eq_of_lt]
    apply hbytes
    rw [List.getD_eq_getElem l 0 (by omega)]
    exact List.getElem_mem _
  have := readRecAux_drop q off l hlen h2 128 0 (by omega)
  rw [readRec, this, List.drop_zero]

/-! ### Slot pointer and occupancy on a validated page -/

lemma slot_ptr_31 (buf : Page) (i : Nat) (hi : i < 31)
    (hcap : tbl_get_capacity buf = 31) (hrs : tbl_get_record_size buf = 128) :
    tbl_slot_ptr buf (Int.ofNat i) = some (28 + 128 * i) := by
  simp only [tbl_slot_ptr, toNat_ofNat_id]
  rw [if_neg (by rw [Int.ofNat_eq_coe]; omega), if_neg (by omega), hcap, hrs]

lemma slot_is_used_true (buf : Page) (i : Nat) (hi : i < tbl_get_capacity buf)
    (hbit : readByte buf (24 + i / 8) &&& (1 <<< (i % 8)) ≠ 0) :
    tbl_slot_is_used buf (Int.ofNat i) = true := by
  simp only [tbl_slot_is_used, toNat_ofNat_id]
  rw [if_neg (by rw [Int.ofNat_eq_coe]; omega), if_neg (by omega)]
  simp [hbit]

lemma slot_is_used_false (buf : Page) (i : Nat)
    (hbit : readByte buf (24 + i / 8) &&& (1 <<< (i % 8)) = 0) :
    tbl_slot_is_used buf (Int.ofNat i) = false := by
  simp only [tbl_slot_is_used, toNat_ofNat_id]
  rw [if_neg (by rw [Int.ofNat_eq_coe]; omega)]
  split_ifs with hc
  all_goals first | rfl | simp [hbit]

lemma mark_used_eq (p : Page) (i : Nat) (hi : i < tbl_get_capacity p)
    (hu : tbl_get_used_count p < tbl_get_capacity p)
    (hbit : readByte p (24 + i / 8) &&& (1 <<< (i % 8)) = 0) :
    tbl_slot_mark_used p (Int.ofNat i) =
      (TABLE_OK, write_le_u16 (writeByte p (24 + i / 8)
        (readByte p (24 + i / 8) ||| (1 <<< (i % 8)))) 6 (tbl_get_used_count p + 1)) := by
  simp only [tbl_slot_mark_used, toNat_ofNat_id]
  rw [if_neg (by rw [Int.ofNat_eq_coe]; omega), if_neg (by omega), if_neg (by omega),
    if_neg (by omega), if_neg (by simp [hbit])]

/-- The page resulting from `tblmgr_insert`'s slot write: the record copied
into slot `i`, the slot marked used. -/
def insertedPage (buf : Page) (i : Nat) (l : List Nat) : Page :=
  (tbl_slot_mark_used (memcpyIn buf (28 + 128 * i) l) (Int.ofNat i)).2

/-- What a successful insert guarantees about the resulting state: the id
decodes to a page of the file holding a valid leaf whose slot carries the
record bytes. -/
def InsertedAt (S2 : PagerS) (id : Nat) (l : List Nat) : Prop :=
  ∃ p i, id = mkId p i ∧ 1 ≤ p ∧ p < S2.pageCount ∧ p < 65536 ∧ i < 31 ∧
    tbl_validate (S2.pages p) = TABLE_OK ∧
    readByte (S2.pages p) (24 + i / 8) &&& (1 <<< (i % 8)) ≠ 0 ∧
    ∀ k, k < 128 → readByte (S2.pages p) (28 + 128 * i + k) = l.getD k 0 % 256

lemma memcpy_hdr_read (buf : Page) (off : Nat) (l : List Nat) (x : Nat)
    (hx : x < off) : readByte (memcpyIn buf off l) x = readByte buf x :=
  readByte_memcpyIn_out buf off l x (Or.inl hx)

/-- Observations of `insertedPage`: it still validates, the bit of slot `i`
is set, and the slot payload equals the copied record bytes. -/
lemma insertedPage_obs (buf : Page) (i : Nat) (l : List Nat)
    (hv : tbl_validate buf = TABLE_OK) (hi : i < 31)
    (hu : tbl_get_used_count buf < tbl_get_capacity buf)
    (hbit : readByte buf (24 + i / 8) &&& (1 <<< (i % 8)) = 0) :
    tbl_validate (insertedPage buf i l) = TABLE_OK ∧
    readByte (insertedPage buf i l) (24 + i / 8) &&& (1 <<< (i % 8)) ≠ 0 ∧
    ∀ k, k < 128 → readByte (insertedPage buf i l) (28 + 128 * i + k) =
      l.getD k 0 % 256 := by
  obtain ⟨hk, hrs, hcap31, hule, hpop, hstray⟩ := (validate_ok_iff buf).1 hv
  set off := 28 + 128 * i with hoffdef
  set buf1 := memcpyIn buf off l with hbuf1
  have hlt : ∀ x, x < 28 → readByte buf1 x = readByte buf x := fun x hx =>
    memcpy_hdr_read buf off l x (by omega)
  have hcap1 : tbl_get_capacity buf1 = 31 := by
    show read_le_u16 buf1 4 = 31
    rw [read_le_u16_congr buf1 buf 4 (hlt 4 (by omega)) (hlt 5 (by omega))]
    exact hcap31
  have hused1 : tbl_get_used_count buf1 = tbl_get_used_count buf := by
    show read_le_u16 buf1 6 = read_le_u16 buf 6
    exact read_le_u16_congr buf1 buf 6 (hlt 6 (by omega)) (hlt 7 (by omega))
  have hv1 : tbl_validate buf1 = TABLE_OK := by
    rw [tbl_validate_congr buf1 buf (by rw [hcap1]; intro x hx; exact hlt x (by omega))]
    exact hv
  have hbit1 : readByte buf1 (24 + i / 8) &&& (1 <<< (i % 8)) = 0 := by
    rw [hlt _ (by omega)]
    exact hbit
  have hme := mark_used_eq buf1 i (by omega) (by rw [hused1, hcap1]; omega) hbit1
  have hip : insertedPage buf i l = write_le_u16 (writeByte buf1 (24 + i / 8)
      (readByte buf1 (24 + i / 8) ||| (1 <<< (i % 8)))) 6 (tbl_get_used_count buf1 + 1) := by
    unfold insertedPage
    rw [← hbuf1, hme]
  have hb1 : readByte buf1 (24 + i / 8) < 256 := readByte_lt _ _
  refine ⟨?_, ?_, ?_⟩
  · rw [hip]
    exact validate_after_mark_used buf1 i hv1 hi hbit1 (by rw [hused1]; omega)
  · rw [hip, bm_update_read_a _ _ _ _ (by omega) (by omega),
      Nat.mod_eq_of_lt (byte_or_lt _ hb1 _ (by omega))]
    exact byte_or_test_self _ hb1 _ (by omega)
  · intro k hk
    rw [hip, bm_update_read _ _ _ _ (off + k) (by omega) (by omega) (by omega)]
    have hin := readByte_memcpyIn_in buf off l (off + k) (by omega) (by omega)
    rw [← hbuf1] at hin
    rw [hin, show off + k - off = k by omega]

lemma setPage_pages_self (S : PagerS) (no : Nat) (buf : Page) :
    (setPage S no buf).pages no = buf := by
  simp [setPage]

lemma setPage_pages_other (S : PagerS) (no : Nat) (buf : Page) (q : Nat) (h : q ≠ no) :
    (setPage S no buf).pages q = S.pages q := by
  simp [setPage, h]

lemma setPage_pageCount (S : PagerS) (no : Nat) (buf : Page) :
    (setPage S no buf).pageCount = S.pageCount := rfl

lemma inserted_at_of_write (S : PagerS) (page i : Nat) (l : List Nat)
    (hp1 : 1 ≤ page) (hpc : page < S.pageCount) (hp65 : page < 65536)
    (hv : tbl_validate (S.pages page) = TABLE_OK)
    (hu : tbl_get_used_count (S.pages page) < tbl_get_capacity (S.pages page))
    (hi : i < 31)
    (hbit : readByte (S.pages page) (24 + i / 8) &&& (1 <<< (i % 8)) = 0) :
    InsertedAt (setPage S page (insertedPage (S.pages page) i l)) (mkId page i) l := by
  obtain ⟨hv2, hbit2, hslot2⟩ := insertedPage_obs (S.pages page) i l hv hi hu hbit
  have hpg := setPage_pages_self S page (insertedPage (S.pages page) i l)
  exact ⟨page, i, rfl, hp1, hpc, hp65, hi, by rw [hpg]; exact hv2,
    by rw [hpg]; exact hbit2, by rw [hpg]; exact hslot2⟩

/-- A state satisfying `InsertedAt` answers `tblmgr_get` with the record. -/
lemma get_of_inserted (S2 : PagerS) (id : Nat) (l : List Nat)
    (h : InsertedAt S2 id l) (hlen : l.length = 128) (hbytes : ∀ b ∈ l, b < 256) :
    (tblmgr_get S2 id).2 = .ok l := by
  obtain ⟨p, i, hid, hp1, hpc, hp65, hi31, hv, hbit, hslot⟩ := h
  obtain ⟨hk, hrs, hcap31, hule, hpop, hstray⟩ := (validate_ok_iff _).1 hv
  have hpg : id >>> 16 = p := by rw [hid]; exact mkId_page p i hp65 (by omega)
  have hsl : id &&& 65535 = i := by rw [hid]; exact mkId_slot p i hp65 (by omega)
  simp only [tblmgr_get, hpg, hsl, pager_read_ok S2 p hpc hp65,
    slot_ptr_31 (S2.pages p) i hi31 hcap31 hrs]
  rw [if_neg (by omega : ¬(p = 0 ∨ p ≥ S2.pageCount)),
    if_neg (by simp [hv] : ¬tbl_validate (S2.pages p) ≠ TABLE_OK),
    if_neg (by omega : ¬i ≥ tbl_get_capacity (S2.pages p)),
    if_neg (by push_neg; exact slot_is_used_true (S2.pages p) i (by omega) hbit :
      ¬¬tbl_slot_is_used (S2.pages p) (Int.ofNat i) = true)]
  show (S2, Except.ok (readRec (S2.pages p) (28 + 128 * i))).2 = Except.ok l
  rw [readRec_eq (S2.pages p) (28 + 128 * i) l hlen hbytes hslot]

/-- Everything a successful `insertLoop` guarantees, by induction on the
fuel: the emitted id addresses a valid leaf slot of the final state holding
the inserted record.  The page-count bound 65535 keeps every page number the
loop can touch (chain pages are below `pageCount`; a freshly allocated page
equals the old `pageCount`) below 65536, so the id packing is lossless. -/
lemma insertLoop_ok_inserted : ∀ fuel (S : PagerS) (page : Nat) (l : List Nat),
    S.pageCount ≤ 65535 → 1 ≤ page → ∀ S2 id,
    insertLoop l S page fuel = .ok (S2, id) → InsertedAt S2 id l := by
  have hvE : tbl_validate emptyLeaf = TABLE_OK := by decide
  have huE : tbl_get_used_count emptyLeaf < tbl_get_capacity emptyLeaf := by decide
  have hfE : tbl_slot_find_free emptyLeaf = Int.ofNat 0 := by decide
  have hcE : tbl_get_capacity emptyLeaf = 31 := by decide
  have hrE : tbl_get_record_size emptyLeaf = 128 := by decide
  have hbE : readByte emptyLeaf (24 + 0 / 8) &&& (1 <<< (0 % 8)) = 0 := by decide
  have hinit : tbl_init_leaf zeroPage 128 = (TABLE_OK, emptyLeaf) := rfl
  intro fuel
  induction fuel with
  | zero => intro S page l _ _ S2 id h; simp [insertLoop] at h
  | succ f ih =>
    intro S page l hcnt hp1 S2 id h
    simp only [insertLoop] at h
    by_cases hpc : page < S.pageCount
    case neg =>
      simp only [pager_read_range S page (by omega)] at h
      simp at h
    case pos =>
      simp only [pager_read_ok S page hpc (by omega)] at h
      by_cases hv : tbl_validate (S.pages page) = TABLE_OK
      case neg =>
        rw [if_pos hv] at h
        simp at h
      case pos =>
        rw [if_neg (by simp [hv])] at h
        obtain ⟨hk, hrs, hcap31, hule, hpop, hstray⟩ := (validate_ok_iff _).1 hv
        by_cases hu : tbl_get_used_count (S.pages page) < tbl_get_capacity (S.pages page)
        case pos =>
          rw [if_pos hu] at h
          rcases find_free_cases (S.pages page) with hf | ⟨i, hf⟩
          · exfalso
            have h31 := ((find_free_spec _ hv).1).1 hf
            rw [hcap31] at hu
            omega
          · rw [hf] at h
            obtain ⟨hi31, hbit, hmin⟩ := (find_free_spec _ hv).2 i hf
            rw [if_neg (by rw [Int.ofNat_eq_coe]; omega : ¬(Int.ofNat i : Int) < 0)] at h
            simp only [slot_ptr_31 (S.pages page) i hi31 hcap31 hrs] at h
            simp only [pager_write_ok S page
              ((tbl_slot_mark_used (memcpyIn (S.pages page) (28 + 128 * i) l)
                (Int.ofNat i)).2) hpc (by omega)] at h
            have hinj := Except.ok.inj h
            rw [Prod.mk.injEq] at hinj
            obtain ⟨hS, hid⟩ := hinj
            rw [← hS, ← hid, toNat_ofNat_id]
            exact inserted_at_of_write S page i l hp1 hpc (by omega) hv hu hi31 hbit
        case neg =>
          rw [if_neg hu] at h
          by_cases hnx : tbl_get_next_page (S.pages page) ≠ 0
          case pos =>
            rw [if_pos hnx] at h
            by_cases hnc : tbl_get_next_page (S.pages page) < S.pageCount
            case pos => exact ih S _ l hcnt (by omega) S2 id h
            case neg =>
              rcases f with _ | f2
              · simp [insertLoop] at h
              · simp only [insertLoop,
                  pager_read_range S (tbl_get_next_page (S.pages page)) (by omega)] at h
                simp at h
          case neg =>
            rw [if_neg hnx] at h
            push_neg at hnx
            cases ha : pager_alloc_page S with
            | error e => simp only [ha] at h; simp at h
            | ok pr =>
              simp only [ha] at h
              obtain ⟨S1, newPage⟩ := pr
              have hobs := pager_alloc_obs S (S1, newPage) ha (by omega)
              have hno : newPage = S.pageCount := hobs.1
              have hcnt1 : S1.pageCount = S.pageCount + 1 := hobs.2.1
              simp only [hinit] at h
              rw [if_neg (by simp)] at h
              simp only [pager_write_ok S1 newPage emptyLeaf (by omega) (by omega)] at h
              simp only [pager_write_ok (setPage S1 newPage emptyLeaf) page
                (tbl_set_next_page (S.pages page) newPage)
                (by rw [setPage_pageCount]; omega) (by omega)] at h
              rcases f with _ | f2
              · simp [insertLoop] at h
              · have hS3cnt : (setPage (setPage S1 newPage emptyLeaf) page
                    (tbl_set_next_page (S.pages page) newPage)).pageCount =
                    S.pageCount + 1 := by
                  rw [setPage_pageCount, setPage_pageCount, hcnt1]
                have hS3new : (setPage (setPage S1 newPage emptyLeaf) page
                    (tbl_set_next_page (S.pages page) newPage)).pages newPage =
                    emptyLeaf := by
                  rw [setPage_pages_other _ _ _ _ (by omega : newPage ≠ page),
                    setPage_pages_self]
                simp only [insertLoop] at h
                simp only [pager_read_ok _ newPage (by rw [hS3cnt]; omega) (by omega)] at h
                rw [hS3new] at h
                rw [if_neg (by simp [hvE])] at h
                rw [if_pos huE] at h
                rw [hfE] at h
                rw [if_neg (by decide : ¬(Int.ofNat 0 : Int) < 0)] at h
                simp only [slot_ptr_31 emptyLeaf 0 (by norm_num) hcE hrE] at h
                simp only [pager_write_ok _ newPage
                  ((tbl_slot_mark_used (memcpyIn emptyLeaf (28 + 128 * 0) l)
                    (Int.ofNat 0)).2) (by rw [hS3cnt]; omega) (by omega)] at h
                have hinj := Except.ok.inj h
                rw [Prod.mk.injEq] at hinj
                obtain ⟨hS, hid⟩ := hinj
                rw [← hS, ← hid, toNat_ofNat_id]
                have hrw : insertedPage ((setPage (setPage S1 newPage emptyLeaf) page
                    (tbl_set_next_page (S.pages page) newPage)).pages newPage) 0 l =
                    (tbl_slot_mark_used (memcpyIn emptyLeaf (28 + 128 * 0) l)
                      (Int.ofNat 0)).2 := by
                  unfold insertedPage
                  rw [hS3new]
                rw [← hrw]
                exact inserted_at_of_write _ newPage 0 l (by omega)
                  (by rw [hS3cnt]; omega) (by omega) (by rw [hS3new]; exact hvE)
                  (by rw [hS3new]; exact huE) (by norm_num) (by rw [hS3new]; exact hbE)

/-! ### Claim C1: insert/get round trip -/

/-- Claim C1 (amended): for every 128-byte payload and every chain root, on a
file of at most 65535 pages, if `tblmgr_insert` succeeds and emits an id,
then `tblmgr_get` on that id succeeds and returns exactly the payload.  (The
page-count bound is forced by the id-truncation counterexample: on larger
files an insert landing on page 65536 emits an id that decodes to a
different page.) -/
theorem claim_C1_roundtrip_amended (S : PagerS) (root : Nat) (l : List Nat)
    (hcnt : S.pageCount ≤ 65535) (hlen : l.length = 128)
    (hbytes : ∀ b ∈ l, b < 256) (S2 : PagerS) (id : Nat)
    (h : tblmgr_insert S root l = .ok (S2, id)) :
    (tblmgr_get S2 id).2 = .ok l := by
  unfold tblmgr_insert at h
  split_ifs at h with hr
  exact get_of_inserted S2 id l
    (insertLoop_ok_inserted _ S root l hcnt (by omega) S2 id h) hlen hbytes

/-- The state after inserting `mkRec 7` into the freshly created table. -/
def insW1 : PagerS := insState createdS (tblmgr_insert createdS 1 (mkRec 7))

/-- Witness for C1: inserting a concrete record into the created 2-page file
yields id 0x00010000, and `get` returns the record. -/
theorem claim_C1_roundtrip_amended_witness :
    createdS.pageCount ≤ 65535 ∧
    tblmgr_insert createdS 1 (mkRec 7) = .ok (insW1, 65536) ∧
    (tblmgr_get insW1 65536).2 = .ok (mkRec 7) := by
  have h : tblmgr_insert createdS 1 (mkRec 7) = .ok (insW1, 65536) := rfl
  exact ⟨by decide, h,
    claim_C1_roundtrip_amended createdS 1 (mkRec 7) (by decide) (by simp [mkRec])
      (by intro b hb; simp [mkRec] at hb; omega) insW1 65536 h⟩

/-- Counterexample to C1 as stated: the chain rooted at page 65536 — exactly
what `tblmgr_create(pager, 65536)` builds, and which `tblmgr_validate_all`
accepts as a valid chain — yields an insert that succeeds with id 0, and
`tblmgr_get` on that id fails. -/
theorem claim_C1_roundtrip_counterexample :
    tblmgr_validate_all Sbad 65536 = TABLE_OK ∧
    tblmgr_insert Sbad 65536 (mkRec 7) = .ok (SbadIns, 0) ∧
    (tblmgr_get SbadIns 0).2 = .error TABLE_E_INVAL :=
  ⟨by decide, rfl, rfl⟩

/-! ### Claim C7: delete semantics -/

lemma mark_free_eq (p : Page) (i : Nat) (hi : i < tbl_get_capacity p)
    (hule : tbl_get_used_count p ≤ tbl_get_capacity p)
    (hu1 : 1 ≤ tbl_get_used_count p)
    (hbit : readByte p (24 + i / 8) &&& (1 <<< (i % 8)) ≠ 0) :
    tbl_slot_mark_free p (Int.ofNat i) =
      (TABLE_OK, write_le_u16 (writeByte p (24 + i / 8)
        (readByte p (24 + i / 8) &&& (255 ^^^ (1 <<< (i % 8))))) 6
        (tbl_get_used_count p - 1)) := by
  simp only [tbl_slot_mark_free, toNat_ofNat_id]
  rw [if_neg (by rw [Int.ofNat_eq_coe]; omega), if_neg (by omega), if_neg (by omega),
    if_neg (by omega), if_neg (by simp [hbit])]

/-- The page resulting from `tblmgr_delete`'s slot write: payload zeroed,
bit cleared. -/
def deletedPage (buf : Page) (i : Nat) : Page :=
  (tbl_slot_mark_free (zeroSlot buf (28 + 128 * i)) (Int.ofNat i)).2

lemma zeroSlot_hdr_read (buf : Page) (off : Nat) (x : Nat) (hx : x < off) :
    readByte (zeroSlot buf off) x = readByte buf x :=
  readByte_zeroSlot_out buf off x (Or.inl hx)

/-- Observations of `deletedPage`: it still validates, the bit of slot `i`
is cleared, and the slot payload is zero. -/
lemma deletedPage_obs (buf : Page) (i : Nat)
    (hv : tbl_validate buf = TABLE_OK) (hi : i < 31)
    (hbit : readByte buf (24 + i / 8) &&& (1 <<< (i % 8)) ≠ 0) :
    tbl_validate (deletedPage buf i) = TABLE_OK ∧
    readByte (deletedPage buf i) (24 + i / 8) &&& (1 <<< (i % 8)) = 0 ∧
    ∀ k, k < 128 → readByte (deletedPage buf i) (28 + 128 * i + k) = 0 := by
  obtain ⟨hk, hrs, hcap31, hule, hpop, hstray⟩ := (validate_ok_iff buf).1 hv
  set off := 28 + 128 * i with hoffdef
  set buf1 := zeroSlot buf off with hbuf1
  have hlt : ∀ x, x < 28 → readByte buf1 x = readByte buf x := fun x hx =>
    zeroSlot_hdr_read buf off x (by omega)
  have hcap1 : tbl_get_capacity buf1 = 31 := by
    show read_le_u16 buf1 4 = 31
    rw [read_le_u16_congr buf1 buf 4 (hlt 4 (by omega)) (hlt 5 (by omega))]
    exact hcap31
  have hused1 : tbl_get_used_count buf1 = tbl_get_used_count buf := by
    show read_le_u16 buf1 6 = read_le_u16 buf 6
    exact read_le_u16_congr buf1 buf 6 (hlt 6 (by omega)) (hlt 7 (by omega))
  have hv1 : tbl_validate buf1 = TABLE_OK := by
    rw [tbl_validate_congr buf1 buf (by rw [hcap1]; intro x hx; exact hlt x (by omega))]
    exact hv
  have hbit1 : readByte buf1 (24 + i / 8) &&& (1 <<< (i % 8)) ≠ 0 := by
    rw [hlt _ (by omega)]
    exact hbit
  have hu1 : 1 ≤ tbl_get_used_count buf := by
    have hb := readByte_lt buf (24 + i / 8)
    have hpos := byte_pop_pos _ hb (i % 8) (by omega) hbit
    have hcase : i / 8 = 0 ∨ i / 8 = 1 ∨ i / 8 = 2 ∨ i / 8 = 3 := by omega
    rw [popcountBM_4] at hpop
    rcases hcase with hc | hc | hc | hc <;> rw [hc] at hpos <;> norm_num at hpos <;> omega
  have hme := mark_free_eq buf1 i (by omega) (by rw [hused1, hcap1]; omega)
    (by rw [hused1]; omega) hbit1
  have hip : deletedPage buf i = write_le_u16 (writeByte buf1 (24 + i / 8)
      (readByte buf1 (24 + i / 8) &&& (255 ^^^ (1 <<< (i % 8))))) 6
      (tbl_get_used_count buf1 - 1) := by
    unfold deletedPage
    rw [← hbuf1, hme]
  have hb1 : readByte buf1 (24 + i / 8) < 256 := readByte_lt _ _
  refine ⟨?_, ?_, ?_⟩
  · rw [hip]
    exact validate_after_mark_free buf1 i hv1 hi hbit1 (by rw [hused1]; omega)
  · rw [hip, bm_update_read_a _ _ _ _ (by omega) (by omega),
      Nat.mod_eq_of_lt (lt_of_le_of_lt Nat.and_le_left hb1)]
    exact byte_and_not_test_self _ hb1 _ (by omega)
  · intro k hk
    rw [hip, bm_update_read _ _ _ _ (off + k) (by omega) (by omega) (by omega)]
    exact readByte_zeroSlot_in buf off (off + k) (by omega) (by omega)

/-- `tbl_slot_is_used` as a pair of raw facts. -/
lemma slot_is_used_inv (buf : Page) (i : Nat)
    (h : tbl_slot_is_used buf (Int.ofNat i) = true) :
    i < tbl_get_capacity buf ∧ readByte buf (24 + i / 8) &&& (1 <<< (i % 8)) ≠ 0 := by
  simp only [tbl_slot_is_used, toNat_ofNat_id] at h
  rw [if_neg (by rw [Int.ofNat_eq_coe]; omega)] at h
  by_cases hc : tbl_get_capacity buf ≤ i
  · rw [if_pos hc] at h
    exact absurd h (by simp)
  · rw [if_neg hc] at h
    exact ⟨by omega, by simpa using h⟩

/-- What `tblmgr_delete` computes on a live id. -/
lemma delete_eq (S : PagerS) (id : Nat)
    (hp1 : 1 ≤ id >>> 16) (hpc : id >>> 16 < S.pageCount) (hp65 : id >>> 16 < 65536)
    (hv : tbl_validate (S.pages (id >>> 16)) = TABLE_OK)
    (hused : tbl_slot_is_used (S.pages (id >>> 16)) (Int.ofNat (id &&& 65535)) = true) :
    tblmgr_delete S id =
      .ok (setPage S (id >>> 16) (deletedPage (S.pages (id >>> 16)) (id &&& 65535))) := by
  obtain ⟨hk, hrs, hcap31, hule, hpop, hstray⟩ := (validate_ok_iff _).1 hv
  obtain ⟨hicap, hbit⟩ := slot_is_used_inv _ _ hused
  simp only [tblmgr_delete, pager_read_ok S (id >>> 16) hpc hp65,
    slot_ptr_31 (S.pages (id >>> 16)) (id &&& 65535) (by omega) hcap31 hrs]
  rw [if_neg (by omega : ¬(id >>> 16 = 0 ∨ id >>> 16 ≥ S.pageCount)),
    if_neg (by simp [hv]), if_neg (by omega : ¬(id &&& 65535 ≥
      tbl_get_capacity (S.pages (id >>> 16)))),
    if_neg (by push_neg; exact hused :
      ¬¬tbl_slot_is_used (S.pages (id >>> 16)) (Int.ofNat (id &&& 65535)) = true)]
  rw [pager_write_ok S (id >>> 16) _ hpc hp65]
  rfl

/-- `tblmgr_get` fails with `TABLE_E_INVAL` when the addressed slot's bitmap
bit is clear (or out of capacity) on a validated page. -/
lemma get_fails_free (S : PagerS) (id : Nat)
    (hp1 : 1 ≤ id >>> 16) (hpc : id >>> 16 < S.pageCount) (hp65 : id >>> 16 < 65536)
    (hv : tbl_validate (S.pages (id >>> 16)) = TABLE_OK)
    (hbit : readByte (S.pages (id >>> 16)) (24 + (id &&& 65535) / 8) &&&
      (1 <<< ((id &&& 65535) % 8)) = 0) :
    (tblmgr_get S id).2 = .error TABLE_E_INVAL := by
  simp only [tblmgr_get, pager_read_ok S (id >>> 16) hpc hp65]
  rw [if_neg (by omega : ¬(id >>> 16 = 0 ∨ id >>> 16 ≥ S.pageCount)),
    if_neg (by simp [hv])]
  by_cases hc : (id &&& 65535) ≥ tbl_get_capacity (S.pages (id >>> 16))
  · rw [if_pos hc]
  · rw [if_neg hc,
      if_pos (by simp only [Bool.not_eq_true]; exact
        slot_is_used_false (S.pages (id >>> 16)) (id &&& 65535) hbit)]

/-- Every id the slot loop of a scan emits comes from a used slot of the
scanned page. -/
lemma scanSlots_ids (buf : Page) (pageNo : Nat) (rem : Nat) :
    ∀ i acc, (scanSlots buf pageNo cbId i rem acc).2 = 0 ∧
      ∀ x ∈ (scanSlots buf pageNo cbId i rem acc).1,
        x ∈ acc ∨ ∃ j, i ≤ j ∧ j < i + rem ∧
          tbl_slot_is_used buf (Int.ofNat j) = true ∧ x = mkId pageNo j := by
  induction rem with
  | zero =>
    intro i acc
    exact ⟨rfl, fun x hx => Or.inl hx⟩
  | succ r ih =>
    intro i acc
    by_cases hu : tbl_slot_is_used buf (Int.ofNat i) = true
    · have heq : scanSlots buf pageNo cbId i (r + 1) acc =
          scanSlots buf pageNo cbId (i + 1) r (acc ++ [mkId pageNo i]) := by
        simp only [scanSlots, hu, if_true, cbId]
        norm_num
      obtain ⟨h2, hmem⟩ := ih (i + 1) (acc ++ [mkId pageNo i])
      rw [heq]
      refine ⟨h2, fun x hx => ?_⟩
      rcases hmem x hx with hin | ⟨j, hj1, hj2, hj3, hj4⟩
      · rcases List.mem_append.1 hin with hl | hl
        · exact Or.inl hl
        · exact Or.inr ⟨i, le_refl i, by omega, hu, by simpa using hl⟩
      · exact Or.inr ⟨j, by omega, by omega, hj3, hj4⟩
    · have heq : scanSlots buf pageNo cbId i (r + 1) acc =
          scanSlots buf pageNo cbId (i + 1) r acc := by
        simp only [scanSlots]
        rw [if_neg hu]
      obtain ⟨h2, hmem⟩ := ih (i + 1) acc
      rw [heq]
      refine ⟨h2, fun x hx => ?_⟩
      rcases hmem x hx with hin | ⟨j, hj1, hj2, hj3, hj4⟩
      · exact Or.inl hin
      · exact Or.inr ⟨j, by omega, by omega, hj3, hj4⟩

/-- Every id the page loop of a scan emits is the packed id of a used slot
of some in-range page of the state. -/
lemma scanLoop_ids (S : PagerS) (fuel : Nat) :
    ∀ page u ids rc, scanLoop cbId S page u fuel = .ok (ids, rc) →
      ∀ x ∈ ids, x ∈ u ∨ ∃ q j, q < S.pageCount ∧ j < 31 ∧
        tbl_slot_is_used (S.pages q) (Int.ofNat j) = true ∧ x = mkId q j := by
  induction fuel with
  | zero =>
    intro page u ids rc h
    exact absurd h (by simp [scanLoop])
  | succ f ih =>
    intro page u ids rc h
    simp only [scanLoop] at h
    cases hread : pager_read S page with
    | error e =>
      rw [hread] at h
      exact absurd h (by simp)
    | ok buf =>
      simp only [hread] at h
      obtain ⟨hplt, hbufeq⟩ := pager_read_ok_inv S page buf hread
      by_cases hv : tbl_validate buf = TABLE_OK
      · rw [if_neg (by simp [hv])] at h
        obtain ⟨hk0, hrs, hcap31, hule, hpop, hstray⟩ := (validate_ok_iff buf).1 hv
        by_cases hnx : tbl_get_next_page buf ≥ S.pageCount ∧ tbl_get_next_page buf ≠ 0
        · rw [if_pos hnx] at h
          exact absurd h (by simp)
        · rw [if_neg hnx] at h
          obtain ⟨hz, hmem⟩ := scanSlots_ids buf page (tbl_get_capacity buf) 0 u
          rw [if_neg (by simp [hz])] at h
          by_cases hn0 : tbl_get_next_page buf = 0
          · rw [if_pos hn0] at h
            have h2 := Except.ok.inj h
            have hids : (scanSlots buf page cbId 0 (tbl_get_capacity buf) u).1 = ids :=
              congrArg Prod.fst h2
            intro x hx
            rw [← hids] at hx
            rcases hmem x hx with hxu | ⟨j, hj1, hj2, hj3, hj4⟩
            · exact Or.inl hxu
            · exact Or.inr ⟨page, j, hplt, by omega, hbufeq ▸ hj3, hj4⟩
          · rw [if_neg hn0] at h
            intro x hx
            rcases ih (tbl_get_next_page buf)
              (scanSlots buf page cbId 0 (tbl_get_capacity buf) u).1 ids rc h x hx with
              hin | hout
            · rcases hmem x hin with hxu | ⟨j, hj1, hj2, hj3, hj4⟩
              · exact Or.inl hxu
              · exact Or.inr ⟨page, j, hplt, by omega, hbufeq ▸ hj3, hj4⟩
            · exact Or.inr hout
      · rw [if_pos (by simp [hv])] at h
        exact absurd h (by simp)

/-- Every id `scanIds` reports is the packed id of a used slot of some
in-range page. -/
lemma scanIds_mem (S : PagerS) (root fuel : Nat) (ids : List Nat)
    (h : scanIds S root fuel = .ok ids) :
    ∀ x ∈ ids, ∃ q j, q < S.pageCount ∧ j < 31 ∧
      tbl_slot_is_used (S.pages q) (Int.ofNat j) = true ∧ x = mkId q j := by
  simp only [scanIds, tblmgr_scan] at h
  by_cases hr : root = 0
  · rw [if_pos hr] at h
    exact absurd h (by simp)
  · rw [if_neg hr] at h
    cases hsl : scanLoop cbId S root [] fuel with
    | error e =>
      rw [hsl] at h
      exact absurd h (by simp)
    | ok pr =>
      obtain ⟨l, rc⟩ := pr
      simp only [hsl] at h
      intro x hx
      have hlx : x ∈ l := by
        have hle : l = ids := by simpa using h
        rw [hle]
        exact hx
      rcases scanLoop_ids S fuel root [] l rc hsl x hlx with hin | hout
      · exact absurd hin (List.not_mem_nil x)
      · exact hout

/-- A 2-page file whose leaf page 1 has slot 0 in use. -/
def SW7 : PagerS :=
  { pageCount := 2, pages := fun q => if q = 0 then hdrPage 2 else leafOne }

/-- C7 (amended): assuming additionally that the file has at most 65536
pages — so the 16-bit id packing is lossless — deleting a live record id
writes back exactly its page with the record payload zeroed and the bitmap
bit cleared (all other pages untouched), after which `tblmgr_get` of the id
fails with `TABLE_E_INVAL` and no `tblmgr_scan` visits the id again. -/
theorem claim_C7_delete_semantics_amended (S : PagerS) (id : Nat)
    (hcnt : S.pageCount ≤ 65536)
    (hp1 : 1 ≤ id >>> 16) (hpc : id >>> 16 < S.pageCount)
    (hv : tbl_validate (S.pages (id >>> 16)) = TABLE_OK)
    (hused : tbl_slot_is_used (S.pages (id >>> 16)) (Int.ofNat (id &&& 65535)) = true) :
    tblmgr_delete S id =
      .ok (setPage S (id >>> 16) (deletedPage (S.pages (id >>> 16)) (id &&& 65535))) ∧
    (∀ k, k < 128 → readByte (deletedPage (S.pages (id >>> 16)) (id &&& 65535))
      (28 + 128 * (id &&& 65535) + k) = 0) ∧
    readByte (deletedPage (S.pages (id >>> 16)) (id &&& 65535))
      (24 + (id &&& 65535) / 8) &&& (1 <<< ((id &&& 65535) % 8)) = 0 ∧
    (∀ q, q ≠ id >>> 16 →
      (setPage S (id >>> 16) (deletedPage (S.pages (id >>> 16)) (id &&& 65535))).pages q
        = S.pages q) ∧
    (tblmgr_get (setPage S (id >>> 16)
      (deletedPage (S.pages (id >>> 16)) (id &&& 65535))) id).2 = .error TABLE_E_INVAL ∧
    ∀ root fuel ids,
      scanIds (setPage S (id >>> 16)
        (deletedPage (S.pages (id >>> 16)) (id &&& 65535))) root fuel = .ok ids →
      id ∉ ids := by
  have hp65 : id >>> 16 < 65536 := by omega
  obtain ⟨hk0, hrs, hcap31, hule, hpop, hstray⟩ := (validate_ok_iff _).1 hv
  obtain ⟨hicap, hbit⟩ := slot_is_used_inv _ _ hused
  rw [hcap31] at hicap
  obtain ⟨hvd, hclr, hzero⟩ :=
    deletedPage_obs (S.pages (id >>> 16)) (id &&& 65535) hv hicap hbit
  have hSp : (setPage S (id >>> 16)
      (deletedPage (S.pages (id >>> 16)) (id &&& 65535))).pages (id >>> 16) =
      deletedPage (S.pages (id >>> 16)) (id &&& 65535) := by
    simp [setPage]
  refine ⟨delete_eq S id hp1 hpc hp65 hv hused, hzero, hclr, ?_, ?_, ?_⟩
  · intro q hq
    simp only [setPage]
    rw [if_neg hq]
  · exact get_fails_free _ id hp1 hpc hp65 (by rw [hSp]; exact hvd)
      (by rw [hSp]; exact hclr)
  · intro root fuel ids hscan hin
    obtain ⟨q, j, hq, hj, hjused, hidEq⟩ := scanIds_mem _ root fuel ids hscan id hin
    have hqc : q < S.pageCount := hq
    have hq65 : q < 65536 := by omega
    have hdec1 : q = id >>> 16 := by
      rw [hidEq, mkId_page q j hq65 (by omega)]
    have hdec2 : j = id &&& 65535 := by
      rw [hidEq, mkId_slot q j hq65 (by omega)]
    subst hdec1
    subst hdec2
    rw [hSp] at hjused
    rw [slot_is_used_false _ _ hclr] at hjused
    exact absurd hjused (by simp)

/-- Claim C7's theorem at the concrete file `SW7` and record id 65536
(page 1, slot 0): the hypotheses hold and the delete succeeds, writing back
the page with the slot freed. -/
theorem claim_C7_delete_semantics_amended_witness :
    SW7.pageCount ≤ 65536 ∧
    tbl_validate (SW7.pages (65536 >>> 16)) = TABLE_OK ∧
    tbl_slot_is_used (SW7.pages (65536 >>> 16)) (Int.ofNat (65536 &&& 65535)) = true ∧
    tblmgr_delete SW7 65536 = .ok (setPage SW7 (65536 >>> 16)
      (deletedPage (SW7.pages (65536 >>> 16)) (65536 &&& 65535))) :=
  ⟨by decide, by decide, by decide,
    (claim_C7_delete_semantics_amended SW7 65536 (by decide) (by decide) (by decide)
      (by decide) (by decide)).1⟩

/-- C7 counterexample to the unamended claim: in a 131074-page file whose
chain at root 1 is page 1 → page 65537 with slot 0 used on both, id 65536
names the live record (page 1, slot 0); its delete succeeds, yet a
subsequent scan of the chain still reports id 65536, the truncated packed
id of page 65537's slot 0. -/
theorem claim_C7_delete_semantics_counterexample :
    tbl_validate (Scx.pages 1) = TABLE_OK ∧
    tbl_slot_is_used (Scx.pages 1) (Int.ofNat 0) = true ∧
    tblmgr_delete Scx 65536 = .ok ScxDel ∧
    scanIds ScxDel 1 10 = .ok [65536] :=
  ⟨by decide, by decide, rfl, rfl⟩

/-! ### Claim C8: update round trip and frame -/

/-- What `tblmgr_update` computes on a live id. -/
lemma update_eq (S : PagerS) (id : Nat) (l2 : List Nat)
    (hp1 : 1 ≤ id >>> 16) (hpc : id >>> 16 < S.pageCount) (hp65 : id >>> 16 < 65536)
    (hv : tbl_validate (S.pages (id >>> 16)) = TABLE_OK)
    (hused : tbl_slot_is_used (S.pages (id >>> 16)) (Int.ofNat (id &&& 65535)) = true) :
    tblmgr_update S id l2 = .ok (setPage S (id >>> 16)
      (memcpyIn (S.pages (id >>> 16)) (28 + 128 * (id &&& 65535)) l2)) := by
  obtain ⟨hk, hrs, hcap31, hule, hpop, hstray⟩ := (validate_ok_iff _).1 hv
  obtain ⟨hicap, hbit⟩ := slot_is_used_inv _ _ hused
  simp only [tblmgr_update, pager_read_ok S (id >>> 16) hpc hp65,
    slot_ptr_31 (S.pages (id >>> 16)) (id &&& 65535) (by omega) hcap31 hrs]
  rw [if_neg (by omega : ¬(id >>> 16 = 0 ∨ id >>> 16 ≥ S.pageCount)),
    if_neg (by simp [hv]), if_neg (by omega : ¬(id &&& 65535 ≥
      tbl_get_capacity (S.pages (id >>> 16)))),
    if_neg (by push_neg; exact hused :
      ¬¬tbl_slot_is_used (S.pages (id >>> 16)) (Int.ofNat (id &&& 65535)) = true)]
  rw [pager_write_ok S (id >>> 16) _ hpc hp65]

/-- `tbl_slot_is_used` only looks at the capacity field and the bitmap
byte of its slot. -/
lemma slot_is_used_congr (b1 b2 : Page) (i : Nat)
    (hcap : tbl_get_capacity b1 = tbl_get_capacity b2)
    (hbm : readByte b1 (24 + i / 8) = readByte b2 (24 + i / 8)) :
    tbl_slot_is_used b1 (Int.ofNat i) = tbl_slot_is_used b2 (Int.ofNat i) := by
  simp only [tbl_slot_is_used, toNat_ofNat_id, hcap, hbm]

/-- The slot loop of a scan is determined by the capacity field and the
bitmap bytes of the page. -/
lemma scanSlots_congr (b1 b2 : Page) (pageNo : Nat)
    (hcap : tbl_get_capacity b1 = tbl_get_capacity b2)
    (hbm : ∀ x, 24 ≤ x → x < 28 → readByte b1 x = readByte b2 x) :
    ∀ rem i acc, i + rem ≤ 32 →
      scanSlots b1 pageNo cbId i rem acc = scanSlots b2 pageNo cbId i rem acc := by
  intro rem
  induction rem with
  | zero => intro i acc _; rfl
  | succ r ih =>
    intro i acc hle
    have hused : tbl_slot_is_used b1 (Int.ofNat i) = tbl_slot_is_used b2 (Int.ofNat i) :=
      slot_is_used_congr b1 b2 i hcap (hbm _ (by omega) (by omega))
    by_cases hu : tbl_slot_is_used b2 (Int.ofNat i) = true
    · have heq1 : scanSlots b1 pageNo cbId i (r + 1) acc =
          scanSlots b1 pageNo cbId (i + 1) r (acc ++ [mkId pageNo i]) := by
        simp only [scanSlots, hused, hu, if_true, cbId]
        norm_num
      have heq2 : scanSlots b2 pageNo cbId i (r + 1) acc =
          scanSlots b2 pageNo cbId (i + 1) r (acc ++ [mkId pageNo i]) := by
        simp only [scanSlots, hu, if_true, cbId]
        norm_num
      rw [heq1, heq2, ih (i + 1) (acc ++ [mkId pageNo i]) (by omega)]
    · have hu1 : ¬tbl_slot_is_used b1 (Int.ofNat i) = true := by
        rw [hused]; exact hu
      have heq1 : scanSlots b1 pageNo cbId i (r + 1) acc =
          scanSlots b1 pageNo cbId (i + 1) r acc := by
        simp only [scanSlots]
        rw [if_neg hu1]
      have heq2 : scanSlots b2 pageNo cbId i (r + 1) acc =
          scanSlots b2 pageNo cbId (i + 1) r acc := by
        simp only [scanSlots]
        rw [if_neg hu]
      rw [heq1, heq2, ih (i + 1) acc (by omega)]

lemma pager_read_setPage_self (S : PagerS) (p : Nat) (b2 : Page) (buf : Page)
    (hr : pager_read S p = .ok buf) : pager_read (setPage S p b2) p = .ok b2 := by
  unfold pager_read at hr ⊢
  rw [setPage_pageCount]
  split_ifs at hr with h1 h2
  rw [if_neg h1, if_neg h2, setPage_pages_self]

lemma pager_read_setPage_other (S : PagerS) (p : Nat) (b2 : Page) (page : Nat)
    (hne : page ≠ p) : pager_read (setPage S p b2) page = pager_read S page := by
  unfold pager_read
  rw [setPage_pageCount, setPage_pages_other S p b2 page hne]

lemma pager_read_setPage_error (S : PagerS) (p : Nat) (b2 : Page) (page : Nat) (e : Int)
    (hr : pager_read S page = .error e) :
    pager_read (setPage S p b2) page = .error e := by
  unfold pager_read at hr ⊢
  rw [setPage_pageCount]
  by_cases h1 : page ≥ S.pageCount
  · rw [if_pos h1] at hr ⊢
    exact hr
  · rw [if_neg h1] at hr ⊢
    by_cases h2 : page > (2 ^ 64 - 1) / 4096
    · rw [if_pos h2] at hr ⊢
      exact hr
    · rw [if_neg h2] at hr
      exact absurd hr (by simp)

/-- Replacing one page of the state by a page that agrees with it on the
28 header-and-bitmap bytes does not change what any scan visits. -/
lemma scanLoop_setPage_congr (S : PagerS) (p : Nat) (b2 : Page)
    (hagree : ∀ x, x < 28 → readByte b2 x = readByte (S.pages p) x)
    (hv : tbl_validate (S.pages p) = TABLE_OK) :
    ∀ fuel page u, scanLoop cbId (setPage S p b2) page u fuel =
      scanLoop cbId S page u fuel := by
  obtain ⟨hk0, hrs0, hcap31, hule0, hpop0, hstray0⟩ := (validate_ok_iff _).1 hv
  intro fuel
  induction fuel with
  | zero => intro page u; rfl
  | succ f ih =>
    intro page u
    simp only [scanLoop]
    cases hr : pager_read S page with
    | error e =>
      simp only [pager_read_setPage_error S p b2 page e hr]
    | ok buf =>
      by_cases hpp : page = p
      · subst hpp
        obtain ⟨hplt, hbufeq⟩ := pager_read_ok_inv S page buf hr
        have hcap2 : tbl_get_capacity b2 = tbl_get_capacity buf := by
          rw [hbufeq]
          exact read_le_u16_congr _ _ _ (hagree 4 (by omega)) (hagree 5 (by omega))
        have hcapb : tbl_get_capacity buf = 31 := by rw [hbufeq]; exact hcap31
        have hvb2 : tbl_validate b2 = tbl_validate buf := by
          apply tbl_validate_congr
          intro x hx
          rw [hcap2, hcapb] at hx
          rw [hbufeq]
          exact hagree x (by omega)
        have hnext2 : tbl_get_next_page b2 = tbl_get_next_page buf := by
          rw [hbufeq]
          exact read_le_u32_congr _ _ _ (hagree 8 (by omega)) (hagree 9 (by omega))
            (hagree 10 (by omega)) (hagree 11 (by omega))
        have hbm : ∀ x, 24 ≤ x → x < 28 → readByte b2 x = readByte buf x := by
          intro x h1 h2
          rw [hbufeq]
          exact hagree x (by omega)
        have hss : scanSlots b2 page cbId 0 (tbl_get_capacity buf) u =
            scanSlots buf page cbId 0 (tbl_get_capacity buf) u :=
          scanSlots_congr b2 buf page hcap2 hbm (tbl_get_capacity buf) 0 u
            (by rw [hcapb]; norm_num)
        simp only [pager_read_setPage_self S page b2 buf hr]
        rw [hvb2, hnext2, setPage_pageCount, hcap2, hss, ih]
      · simp only [pager_read_setPage_other S p b2 page hpp, hr]
        rw [setPage_pageCount, ih]

/-- `scanIds` congruence for a single-page replacement preserving the
header and bitmap bytes. -/
lemma scanIds_setPage_congr (S : PagerS) (p : Nat) (b2 : Page)
    (hagree : ∀ x, x < 28 → readByte b2 x = readByte (S.pages p) x)
    (hv : tbl_validate (S.pages p) = TABLE_OK) :
    ∀ root fuel, scanIds (setPage S p b2) root fuel = scanIds S root fuel := by
  intro root fuel
  simp only [scanIds, tblmgr_scan]
  rw [scanLoop_setPage_congr S p b2 hagree hv fuel root []]

/-- C8 (amended): on a file of at most 65535 pages, after a successful
insert of payload `l` yielding `id`, updating `id` with a 128-byte payload
`l2` succeeds, writing back only the addressed page with only the slot's
128 payload bytes changed (header, bitmap, used count, next pointer and all
other slots untouched); a subsequent `get` of `id` returns `l2` and every
scan reports exactly the ids it reported before the update.  (The
page-count bound is forced by the id-truncation counterexample.) -/
theorem claim_C8_update_roundtrip_amended (S : PagerS) (root : Nat) (l l2 : List Nat)
    (hcnt : S.pageCount ≤ 65535) (hlen : l.length = 128) (hbytes : ∀ b ∈ l, b < 256)
    (hlen2 : l2.length = 128) (hbytes2 : ∀ b ∈ l2, b < 256)
    (S2 : PagerS) (id : Nat) (hins : tblmgr_insert S root l = .ok (S2, id)) :
    tblmgr_update S2 id l2 = .ok (setPage S2 (id >>> 16)
      (memcpyIn (S2.pages (id >>> 16)) (28 + 128 * (id &&& 65535)) l2)) ∧
    (tblmgr_get (setPage S2 (id >>> 16)
      (memcpyIn (S2.pages (id >>> 16)) (28 + 128 * (id &&& 65535)) l2)) id).2 = .ok l2 ∧
    (∀ x, x < 28 + 128 * (id &&& 65535) ∨ 28 + 128 * (id &&& 65535) + 128 ≤ x →
      readByte (memcpyIn (S2.pages (id >>> 16)) (28 + 128 * (id &&& 65535)) l2) x =
        readByte (S2.pages (id >>> 16)) x) ∧
    (∀ q, q ≠ id >>> 16 → (setPage S2 (id >>> 16)
      (memcpyIn (S2.pages (id >>> 16)) (28 + 128 * (id &&& 65535)) l2)).pages q =
        S2.pages q) ∧
    ∀ root2 fuel, scanIds (setPage S2 (id >>> 16)
      (memcpyIn (S2.pages (id >>> 16)) (28 + 128 * (id &&& 65535)) l2)) root2 fuel =
      scanIds S2 root2 fuel := by
  have hIA : InsertedAt S2 id l := by
    unfold tblmgr_insert at hins
    split_ifs at hins with hr
    exact insertLoop_ok_inserted _ S root l hcnt (by omega) S2 id hins
  obtain ⟨p, i, hid, hp1, hpc, hp65, hi31, hv, hbit, hslot⟩ := hIA
  obtain ⟨hk0, hrs, hcap31, hule, hpop, hstray⟩ := (validate_ok_iff _).1 hv
  have hpg : id >>> 16 = p := by rw [hid]; exact mkId_page p i hp65 (by omega)
  have hsl : id &&& 65535 = i := by rw [hid]; exact mkId_slot p i hp65 (by omega)
  rw [hpg, hsl]
  have hhdr : ∀ x, x < 28 →
      readByte (memcpyIn (S2.pages p) (28 + 128 * i) l2) x = readByte (S2.pages p) x := by
    intro x hx
    exact memcpy_hdr_read (S2.pages p) (28 + 128 * i) l2 x (by omega)
  have hcap3 : tbl_get_capacity (memcpyIn (S2.pages p) (28 + 128 * i) l2) =
      tbl_get_capacity (S2.pages p) :=
    read_le_u16_congr _ _ _ (hhdr 4 (by omega)) (hhdr 5 (by omega))
  have hv3 : tbl_validate (memcpyIn (S2.pages p) (28 + 128 * i) l2) = TABLE_OK := by
    rw [tbl_validate_congr (memcpyIn (S2.pages p) (28 + 128 * i) l2) (S2.pages p)
      (by intro x hx; rw [hcap3, hcap31] at hx; exact hhdr x (by omega))]
    exact hv
  have hbit3 : readByte (memcpyIn (S2.pages p) (28 + 128 * i) l2) (24 + i / 8) &&&
      (1 <<< (i % 8)) ≠ 0 := by
    rw [hhdr (24 + i / 8) (by omega)]
    exact hbit
  have hslot3 : ∀ k, k < 128 →
      readByte (memcpyIn (S2.pages p) (28 + 128 * i) l2) (28 + 128 * i + k) =
        l2.getD k 0 % 256 := by
    intro k hk
    have hin := readByte_memcpyIn_in (S2.pages p) (28 + 128 * i) l2
      (28 + 128 * i + k) (by omega) (by omega)
    simpa using hin
  have hused : tbl_slot_is_used (S2.pages p) (Int.ofNat i) = true :=
    slot_is_used_true (S2.pages p) i (by omega) hbit
  have hupd := update_eq S2 id l2 (by rw [hpg]; omega) (by rw [hpg]; exact hpc)
    (by rw [hpg]; exact hp65) (by rw [hpg]; exact hv) (by rw [hpg, hsl]; exact hused)
  rw [hpg, hsl] at hupd
  refine ⟨hupd, ?_, ?_, ?_, ?_⟩
  · refine get_of_inserted _ id l2 ⟨p, i, hid, hp1, hpc, hp65, hi31, ?_, ?_, ?_⟩
      hlen2 hbytes2
    · rw [setPage_pages_self]
      exact hv3
    · rw [setPage_pages_self]
      exact hbit3
    · rw [setPage_pages_self]
      exact hslot3
  · intro x hx
    exact readByte_memcpyIn_out (S2.pages p) (28 + 128 * i) l2 x hx
  · intro q hq
    exact setPage_pages_other S2 p _ q hq
  · intro root2 fuel
    exact scanIds_setPage_congr S2 p (memcpyIn (S2.pages p) (28 + 128 * i) l2) hhdr hv
      root2 fuel

/-- Claim C8's theorem at a concrete run: insert `mkRec 7` into the created
2-page file (id 0x00010000), update it to `mkRec 9`; the update succeeds
with the single-page write and `get` then returns `mkRec 9`. -/
theorem claim_C8_update_roundtrip_amended_witness :
    createdS.pageCount ≤ 65535 ∧
    tblmgr_insert createdS 1 (mkRec 7) = .ok (insW1, 65536) ∧
    tblmgr_update insW1 65536 (mkRec 9) = .ok (setPage insW1 (65536 >>> 16)
      (memcpyIn (insW1.pages (65536 >>> 16)) (28 + 128 * (65536 &&& 65535)) (mkRec 9))) ∧
    (tblmgr_get (setPage insW1 (65536 >>> 16)
      (memcpyIn (insW1.pages (65536 >>> 16)) (28 + 128 * (65536 &&& 65535)) (mkRec 9)))
      65536).2 = .ok (mkRec 9) := by
  have h : tblmgr_insert createdS 1 (mkRec 7) = .ok (insW1, 65536) := rfl
  have hm := claim_C8_update_roundtrip_amended createdS 1 (mkRec 7) (mkRec 9)
    (by decide) (by simp [mkRec]) (by intro b hb; simp [mkRec] at hb; omega)
    (by simp [mkRec]) (by intro b hb; simp [mkRec] at hb; omega) insW1 65536 h
  exact ⟨by decide, h, hm.1, hm.2.1⟩

/-- C8 counterexample to the unamended claim: on the 65537-page file whose
chain root is page 65536, the insert succeeds and emits the truncated id 0,
and updating that id immediately fails with `TABLE_E_INVAL`. -/
theorem claim_C8_update_roundtrip_counterexample :
    tblmgr_insert Sbad 65536 (mkRec 7) = .ok (SbadIns, 0) ∧
    tblmgr_update SbadIns 0 (mkRec 9) = .error TABLE_E_INVAL :=
  ⟨rfl, rfl⟩
